import Mathlib

/-!
Verification of the entity-resolution core of the ditat_etl repository.

The embedding translates, line by line, the Python sources
`ditat_etl/utils/entity_resolution/matcher.py`, `ditat_etl/utils/phones.py`
and `ditat_etl/url/functions.py` into executable Lean definitions.
Python strings are modelled as lists of characters (`Str`); the character
operations model the ASCII behaviour of the CPython string methods that the
source applies (the data the matcher handles is ASCII business data).
Pandas DataFrames are modelled as lists of rows, a row being an ordered
association list from column name to cell value.
-/

/-- A Python string, modelled as its list of characters. -/
abbrev Str := List Char

/-- Coerce a Lean string literal to the character-list model. -/
def S (s : String) : Str := s.data

/-- The single-quote character (used by the Python repr of a string). -/
def quoteChar : Char := Char.ofNat 39

/-- The double-quote character (used by json.dumps). -/
def dquoteChar : Char := Char.ofNat 34

/-- The backslash character. -/
def backslashChar : Char := Char.ofNat 92

/-- Models `str.lower()` on ASCII data: `Char.toLower` lowercases `A`-`Z`
and keeps every other character. -/
def pyLower (s : Str) : Str := s.map Char.toLower

/-- Models `str.upper()` on ASCII data. -/
def pyUpper (s : Str) : Str := s.map Char.toUpper

/-- The punctuation removed by `Matcher.clean_field` (matcher.py line 109):
comma, dot, double quote, single quote, bang, question mark, slash. -/
def cleanReplacements : Str := [',', '.', dquoteChar, quoteChar, '!', '?', '/']

/-- Models the loop of `x.replace(r, "")` over `cleanReplacements`
(matcher.py lines 110-111).  Each pattern is a single character, so the
sequence of replacements removes exactly the characters of the set. -/
def removePunct (s : Str) : Str := s.filter (fun c => !(cleanReplacements.contains c))

/-- Whitespace in the sense of Python `str.split()` with no argument:
space, tab, newline, carriage return, vertical tab, form feed. -/
def isPySpace (c : Char) : Bool :=
  c = ' ' || c = Char.ofNat 9 || c = Char.ofNat 10 || c = Char.ofNat 13 ||
  c = Char.ofNat 11 || c = Char.ofNat 12

/-- Helper for `splitWs`: accumulates the current (reversed) token. -/
def splitWsAux (cur : Str) : Str → List Str
  | [] => if cur.isEmpty then [] else [cur.reverse]
  | c :: cs =>
    if isPySpace c then
      if cur.isEmpty then splitWsAux [] cs else cur.reverse :: splitWsAux [] cs
    else
      splitWsAux (c :: cur) cs

/-- Models Python `str.split()` with no argument: split on runs of
whitespace, discarding empty tokens. -/
def splitWs (s : Str) : List Str := splitWsAux [] s

/-- Insert into a sorted list, in front of the first element not below the
inserted one (keeps the sort stable). -/
def insertLe (le : α → α → Bool) (a : α) : List α → List α
  | [] => [a]
  | b :: bs => if le a b then a :: b :: bs else b :: insertLe le a bs

/-- Stable insertion sort.  Models Python `sorted` and the stable orderings
the pipeline relies on: a stable ascending sort produces exactly the list
Python `sorted` returns. -/
def isort (le : α → α → Bool) : List α → List α
  | [] => []
  | a :: as' => insertLe le a (isort le as')

/-- Code-point lexicographic order on strings, the order Python uses to
compare `str` values. -/
def pyLexLe : Str → Str → Bool
  | [], _ => true
  | _ :: _, [] => false
  | a :: as', b :: bs =>
    if a.toNat < b.toNat then true
    else if b.toNat < a.toNat then false
    else pyLexLe as' bs

/-- Hexadecimal digit characters, for the repr of control characters. -/
def hexDigit (n : Nat) : Char := if n < 10 then Char.ofNat (48 + n) else Char.ofNat (87 + n)

/-- The repr escape of one character, as Python repr produces inside a
single-quoted string: backslash doubled, tab, newline and carriage return
as two-character escapes, other ASCII control characters as a hex escape,
anything else kept.  The tokens this model is applied to contain no quote
characters (clean_field removes them before splitting). -/
def pyEscapeChar (c : Char) : Str :=
  if c = backslashChar then [backslashChar, backslashChar]
  else if c = Char.ofNat 9 then [backslashChar, 't']
  else if c = Char.ofNat 10 then [backslashChar, 'n']
  else if c = Char.ofNat 13 then [backslashChar, 'r']
  else if c.toNat < 32 || c.toNat = 127 then
    [backslashChar, 'x', hexDigit (c.toNat / 16), hexDigit (c.toNat % 16)]
  else [c]

/-- The Python repr of one token (a single-quoted string). -/
def pyReprTok (t : Str) : Str := quoteChar :: (t.flatMap pyEscapeChar) ++ [quoteChar]

/-- Concatenate with a separator between consecutive parts. -/
def joinSep (sep : Str) : List Str → Str
  | [] => []
  | [t] => t
  | t :: ts => t ++ sep ++ joinSep sep ts

/-- Models Python `str(list_of_strings)`: bracketed, comma-space separated
list of single-quoted reprs. -/
def pyReprStrList (ts : List Str) : Str := '[' :: joinSep (S ", ") (ts.map pyReprTok) ++ [']']

/-- Matcher.clean_field (matcher.py lines 106-114): lowercase, remove the
punctuation set, split on whitespace, sort the tokens, and return the
Python str of the sorted token list. -/
def clean_field (x : Str) : Str :=
  pyReprStrList (isort pyLexLe (splitWs (removePunct (pyLower x))))

/-- Split a list at the first occurrence of a character: returns the part
before and the part after it. -/
def splitFirst (c : Char) : Str → Option (Str × Str)
  | [] => none
  | d :: ds =>
    if d = c then some ([], ds)
    else (splitFirst c ds).map (fun p => (d :: p.1, p.2))

/-- Word characters, for the word-boundary assertions of the email regex. -/
def isWordChar (c : Char) : Bool :=
  (97 ≤ c.toNat && c.toNat ≤ 122) || (65 ≤ c.toNat && c.toNat ≤ 90) ||
  (48 ≤ c.toNat && c.toNat ≤ 57) || c = '_'

/-- Characters of the local part of the email regex. -/
def isEmailLocalChar (c : Char) : Bool :=
  (97 ≤ c.toNat && c.toNat ≤ 122) || (65 ≤ c.toNat && c.toNat ≤ 90) ||
  (48 ≤ c.toNat && c.toNat ≤ 57) || c = '.' || c = '_' || c = '%' || c = '+' || c = '-'

/-- Characters of the domain body of the email regex. -/
def isEmailDomChar (c : Char) : Bool :=
  (97 ≤ c.toNat && c.toNat ≤ 122) || (65 ≤ c.toNat && c.toNat ≤ 90) ||
  (48 ≤ c.toNat && c.toNat ≤ 57) || c = '.' || c = '-'

/-- Characters of the final group of the email regex.  The source character
class is written with a literal bar inside it, so the bar is accepted. -/
def isTldChar (c : Char) : Bool :=
  (97 ≤ c.toNat && c.toNat ≤ 122) || (65 ≤ c.toNat && c.toNat ≤ 90) || c = '|'

/-- Decides `re.fullmatch` of the email pattern of url/functions.py line 13
(word boundary, local-part class, at sign, domain class, a dot, a final
group of length at least two, word boundary).  Since the final group accepts
no dot, a full match exists exactly when the decomposition at the last dot
of the domain part satisfies the classes; the leading and trailing word
boundaries constrain the first and last characters of the string. -/
def emailFullmatch (s : Str) : Bool :=
  match splitFirst '@' s with
  | none => false
  | some (loc, dom) =>
    !loc.isEmpty && loc.all isEmailLocalChar &&
    (match loc.head? with | some c => isWordChar c | none => false) &&
    !(dom.contains '@') &&
    (match (splitFirst '.' dom.reverse).map (fun p => (p.2.reverse, p.1.reverse)) with
     | none => false
     | some (bodyPart, lastPart) =>
       !bodyPart.isEmpty && bodyPart.all isEmailDomChar &&
       lastPart.length ≥ 2 && lastPart.all isTldChar &&
       (match lastPart.getLast? with | some c => isWordChar c | none => false))

/-- Models `str.replace` of the pattern `www.` by the empty string, as
applied in extract_domain (url/functions.py line 20): scan left to right,
drop each occurrence, continue after it. -/
def replaceWWW : Str → Str
  | 'w' :: 'w' :: 'w' :: '.' :: rest => replaceWWW rest
  | c :: cs => c :: replaceWWW cs
  | [] => []

/-- Scheme characters accepted by urllib.parse when splitting a scheme. -/
def isSchemeChar (c : Char) : Bool :=
  (97 ≤ c.toNat && c.toNat ≤ 122) || (65 ≤ c.toNat && c.toNat ≤ 90) ||
  (48 ≤ c.toNat && c.toNat ≤ 57) || c = '+' || c = '-' || c = '.'

/-- Models `urllib.parse.urlparse(u).netloc`: if the part before the first
colon is a nonempty ASCII-letter-led run of scheme characters it is removed
as the scheme; a netloc is present only when the remainder then starts with
two slashes, and extends to the first slash, question mark or hash. -/
def urlNetloc (u : Str) : Str :=
  let rest :=
    match splitFirst ':' u with
    | some (pre, post) =>
      if !pre.isEmpty &&
         (match pre.head? with
          | some c => (97 ≤ c.toNat && c.toNat ≤ 122) || (65 ≤ c.toNat && c.toNat ≤ 90)
          | none => false) &&
         pre.all isSchemeChar
      then post else u
    | none => u
  match rest with
  | '/' :: '/' :: r => r.takeWhile (fun c => !(c = '/' || c = '?' || c = '#'))
  | _ => []

/-- extract_domain (url/functions.py lines 10-22).  The input is already a
string (`str(url_or_email)` is the identity on the string cells the matcher
passes).  If it contains an at sign and fully matches the email pattern,
the part after the at sign is returned when nonempty (in email-identity
contexts the caller bypasses this function).  Otherwise the string, given a
scheme when it does not already start with `http`, has every occurrence of
`www.` removed and is parsed as a URL; the network location is returned
when it is nonempty and contains a dot.  All other cases fall through to
the implicit Python `None`. -/
def extract_domain (s : Str) : Option Str :=
  if s.contains '@' then
    if emailFullmatch s then
      match splitFirst '@' s with
      | some (_, dom) => if !dom.isEmpty then some dom else none
      | none => none
    else none
  else
    let s2 := if (S "http").isPrefixOf s then s else S "http://" ++ s
    let d := urlNetloc (replaceWWW s2)
    if !d.isEmpty && d.contains '.' then some d else none

/-- One row of the country-code lookup table `country_codes.csv`.  The csv
itself is a data file outside src; per the spec it maps ISO-2, ISO-3 and
free-text country names to ISO-2 codes through its `iso`, `iso_long` and
`country` columns. -/
structure CodeRow where
  iso : Str
  iso_long : Str
  country : Str
deriving DecidableEq

/-- Membership test plus first-match projection modelling the pair of
pandas expressions `country in CODES.col.values` and
`CODES.loc[CODES.col == country, "iso"].values[0]`. -/
def lookupIso (f : CodeRow → Str) (key : Str) (rows : List CodeRow) : Option Str :=
  (rows.find? (fun r => f r = key)).map (fun r => r.iso)

namespace Phone

/-- Phone.format (phones.py lines 16-26), with the phone-parsing library as
an explicit boundary parameter: `lib number region` models
`phonenumbers.format_number(phonenumbers.parse(number, region), E164)`,
returning none when the library raises (the try/except of lines 23-26
converts every library exception to None).  The country is stringified and
lowercased; an ISO-3 match in the table rewrites it to the ISO-2 code, else
a country-name match does; the (possibly unresolved) result is uppercased
and passed to the library as the region. -/
def format (lib : Str → Str → Option Str) (codes : List CodeRow)
    (phone : Str) (country : Str) : Option Str :=
  let c0 := pyLower country
  let c1 :=
    match lookupIso (fun r => r.iso_long) c0 codes with
    | some iso => iso
    | none =>
      match lookupIso (fun r => r.country) c0 codes with
      | some iso => iso
      | none => c0
  lib phone (pyUpper c1)

end Phone

/-- A cell of the tabular model: a missing value (pandas NaN / Python
None), a string, or a number (match counts). -/
inductive Value
  | null
  | str (s : Str)
  | nat (n : Nat)
deriving DecidableEq

/-- A row: an ordered association list from column name to cell, the order
of the entries being the column order. -/
abbrev Row := List (String × Value)

/-- A DataFrame: a list of rows. -/
abbrev DF := List Row

/-- Reading a cell; a column missing from the row reads as null (pandas
fills absent columns of a joined row with NaN). -/
def getVal (r : Row) (c : String) : Value :=
  match r.find? (fun p => p.1 = c) with
  | some p => p.2
  | none => Value.null

/-- True when the cell is missing. -/
def isNullV : Value → Bool
  | Value.null => true
  | _ => false

/-- Models `str(x)` on a cell, as applied by extract_domain to the values
of a column (a missing value prints as `nan`; numeric cells never reach
these call sites). -/
def cellStr : Value → Str
  | Value.null => S "nan"
  | Value.str s => s
  | Value.nat n => S (toString n)

/-- The match count of a result row, for comparisons and sorting. -/
def natVal : Value → Nat
  | Value.nat n => n
  | _ => 0

/-- Set one column of a row: overwrite in place when present, else append
as the last column (pandas column-assignment semantics). -/
def setColRow (r : Row) (c : String) (v : Value) : Row :=
  if (r.find? (fun p => p.1 = c)).isSome then
    r.map (fun p => if p.1 = c then (c, v) else p)
  else r ++ [(c, v)]

/-- Column assignment `df[c] = f(row)` over a whole frame. -/
def setCol (df : DF) (c : String) (f : Row → Value) : DF :=
  df.map (fun r => setColRow r c (f r))

/-- Models `df.dropna(subset=[c])`: keep the rows whose cell at `c` is
present. -/
def dropna (df : DF) (c : String) : DF :=
  df.filter (fun r => !(isNullV (getVal r c)))

/-- Models `df.add_suffix(suf)`: rename every column. -/
def addSuffix (suf : String) (df : DF) : DF :=
  df.map (fun r => r.map (fun p => (p.1 ++ suf, p.2)))

/-- Models `pd.merge(d1, d2, on=key, how="left")`: for each left row in
order, one combined row per matching right row in order (the key column is
kept once, from the left); a left row with no match is kept alone, its
right-side columns absent (hence reading as null).  The suffix arguments of
the source calls never fire because the two sides arrive with disjoint
column names. -/
def mergeLeft (d1 d2 : DF) (key : String) : DF :=
  d1.flatMap (fun r1 =>
    let ms := d2.filter (fun r2 => getVal r2 key = getVal r1 key)
    if ms.isEmpty then [r1]
    else ms.map (fun r2 => r1 ++ r2.filter (fun p => p.1 ≠ key)))

/-- Models `pd.merge(d1, d2, on=key)` (inner join): as `mergeLeft` but
unmatched left rows are dropped. -/
def mergeInner (d1 d2 : DF) (key : String) : DF :=
  d1.flatMap (fun r1 =>
    (d2.filter (fun r2 => getVal r2 key = getVal r1 key)).map
      (fun r2 => r1 ++ r2.filter (fun p => p.1 ≠ key)))

/-- Select columns, in the given order (`df[[c1, c2, ...]]`). -/
def selectCols (df : DF) (cs : List String) : DF :=
  df.map (fun r => cs.map (fun c => (c, getVal r c)))

/-- Total order used for the values of one column when pandas sorts them
(group keys, sort_values): strings by code point, numbers numerically;
ranks across constructors are fixed for definiteness (the pipeline only
ever compares cells of one kind within a column). -/
def valLe : Value → Value → Bool
  | Value.null, _ => true
  | _, Value.null => false
  | Value.str a, Value.str b => pyLexLe a b
  | Value.str _, Value.nat _ => true
  | Value.nat _, Value.str _ => false
  | Value.nat a, Value.nat b => a ≤ b

/-- Lexicographic order on the two-column group key of the aggregation. -/
def keyLe (p q : Value × Value) : Bool :=
  if p.1 = q.1 then valLe p.2 q.2 else valLe p.1 q.1

/-- String payload of a cell (empty for non-strings). -/
def strVal : Value → Str
  | Value.str s => s
  | _ => []

/-- Descending comparison on (match_count, match_type), the sort key of
matcher.py lines 218 and 224 with ascending=False. -/
def rowDescLe (r1 r2 : Row) : Bool :=
  let c1 := natVal (getVal r1 "match_count")
  let c2 := natVal (getVal r2 "match_count")
  if c1 = c2 then pyLexLe (strVal (getVal r2 "match_type")) (strVal (getVal r1 "match_type"))
  else c2 < c1

/-- json.dumps of one scalar; the feature-name strings it is applied to
need no escaping. -/
def jsonValue : Value → Str
  | Value.str s => dquoteChar :: s ++ [dquoteChar]
  | Value.null => S "null"
  | Value.nat n => S (toString n)

/-- json.dumps of a list, with the default ", " separator. -/
def jsonList (vs : List Value) : Str := '[' :: joinSep (S ", ") (vs.map jsonValue) ++ [']']

/-- The aggregation step of matcher.py lines 214-219:
groupby([index1, index2]) (dropping rows with a missing key, with group
keys in sorted order), agg match_type to a non-null count (`match_count`)
and to the list of values in row order (`match_type`), json.dumps the
list, sort descending on (match_count, match_type), reset_index (group
keys become the two leading columns). -/
def aggMatches (df : DF) (i1 i2 : String) : DF :=
  isort rowDescLe
    ((isort keyLe
        (((df.filter (fun r => !(isNullV (getVal r i1)) && !(isNullV (getVal r i2)))).map
          (fun r => (getVal r i1, getVal r i2))).dedup)).map
      (fun k =>
        [(i1, k.1), (i2, k.2),
         ("match_count",
          Value.nat (((df.filter (fun r =>
              !(isNullV (getVal r i1)) && !(isNullV (getVal r i2)))).filter
            (fun r => decide ((getVal r i1, getVal r i2) = k))).countP
              (fun r => !(isNullV (getVal r "match_type"))))),
         ("match_type",
          Value.str (jsonList (((df.filter (fun r =>
              !(isNullV (getVal r i1)) && !(isNullV (getVal r i2)))).filter
            (fun r => decide ((getVal r i1, getVal r i2) = k))).map
              (fun r => getVal r "match_type"))))]))

/-- A registered side (matcher.py class Frame, lines 14-37). -/
structure Frame where
  data : DF
  name : String
  index : String
  domain : Option String
  address : Option String
  phone : Option String
  country : Option String
  entity_name : Option String
  suffix : String
deriving DecidableEq

/-- Frame.__init__ (matcher.py lines 15-37): store a copy of the data with
every column renamed by the side suffix, and namespace each supplied role
column the same way (a role the caller did not supply stays None; the
truthiness test of line 34 also maps an empty-string column name to None,
a case callers never exercise, and the index argument is a nonempty column
name, default id). -/
def Frame.init (data : DF) (name : String) (index : String)
    (domain address phone country entity_name : Option String) : Frame :=
  { data := addSuffix ("_" ++ name) data
    name := name
    index := index ++ "_" ++ name
    domain := domain.map (fun c => c ++ "_" ++ name)
    address := address.map (fun c => c ++ "_" ++ name)
    phone := phone.map (fun c => c ++ "_" ++ name)
    country := country.map (fun c => c ++ "_" ++ name)
    entity_name := entity_name.map (fun c => c ++ "_" ++ name)
    suffix := "_" ++ name }

/-- Dynamic attribute lookup `getattr(frame, feature_name)` as the generic
decorator performs it (matcher.py lines 133-136). -/
def Frame.role (f : Frame) : String → Option String
  | "domain" => f.domain
  | "phone" => f.phone
  | "address" => f.address
  | "entity_name" => f.entity_name
  | _ => none

/-- Matcher instance state (matcher.py lines 40-49).  The ignored-domains
list is loaded at construction from the data file domains_ignored.txt,
modelled as a constructor argument. -/
structure MState where
  exact_domain : Bool
  ignored_domains : List Str
  counter : Nat
  names : List String
  frame1 : Option Frame
  frame2 : Option Frame
  features_processed : List String
deriving DecidableEq

/-- Matcher.__init__ (matcher.py lines 40-49). -/
def Matcher.init (exact_domain : Bool) (ignored_domains : List Str) : MState :=
  { exact_domain := exact_domain
    ignored_domains := ignored_domains
    counter := 1
    names := []
    frame1 := none
    frame2 := none
    features_processed := [] }

/-- The fixed candidate feature list of matcher.py lines 45-48. -/
def features_candidates : List String := ["domain", "phone", "address", "entity_name"]

/-- The exceptions Matcher.set_df raises.  Line 85 raises the name
ValidationError, which is not defined anywhere in the module, so at runtime
the third call surfaces a NameError; either way the call fails before any
frame is stored.  Line 88 raises ValueError. -/
inductive SetDfErr
  | validation
  | nameTaken
deriving DecidableEq

/-- Matcher.set_df (matcher.py lines 56-104): reject a third registration
(line 84), reject a reused side name (line 87); otherwise build the Frame,
store it as frame__1 or frame__2 according to the counter, bump the
counter and record the name.  The state is returned alongside the outcome;
on an error the mutation lines never ran, so the state is unchanged. -/
def Matcher.set_df (st : MState) (data : DF) (name : String) (index : String)
    (domain address phone country entity_name : Option String) :
    Except SetDfErr Unit × MState :=
  if st.counter > 2 then (Except.error SetDfErr.validation, st)
  else if st.names.contains name then (Except.error SetDfErr.nameTaken, st)
  else
    let f := Frame.init data name index domain address phone country entity_name
    let st' := if st.counter = 1 then { st with frame1 := some f } else { st with frame2 := some f }
    (Except.ok (), { st' with counter := st.counter + 1, names := st.names ++ [name] })

/-- The external phone boundary: the country-code table (a data file) and
the phonenumbers parse-and-format call (a library), per spec section 6. -/
structure PhoneExt where
  lib : Str → Str → Option Str
  codes : List CodeRow

/-- Wrap an optional normalization result as a cell. -/
def optToVal : Option Str → Value
  | some s => Value.str s
  | none => Value.null

/-- The feature-specific body applied inside the generic decorator, by
feature name (matcher.py lines 170-198).  The body receives the wrapper's
two frames and mutates their var column in place; those in-place column
assignments are the only effects the wrapper observes.  Returning none
models a body returning False (phone without a country role on both
sides, line 194), upon which the wrapper stops.

For the domain body (lines 180-190): the column assignments of lines
183-188 mutate the shared frames and are modelled; lines 189-190, which
filter out the ignored domains, rebind the body-local names df_1 and df_2
to newly created frames, so the wrapper keeps joining the unfiltered
frames and the denylist filter never affects the emitted matches.  The
model therefore carries no corresponding term for lines 189-190. -/
def Matcher.featureBody (ext : PhoneExt) (st : MState) (f1 f2 : Frame)
    (feature : String) (var : String) (d1 d2 : DF) : Option (DF × DF) :=
  if feature = "entity_name" || feature = "address" then
    some (setCol d1 var (fun r => Value.str (clean_field (cellStr (getVal r var)))),
          setCol d2 var (fun r => Value.str (clean_field (cellStr (getVal r var)))))
  else if feature = "domain" then
    match f1.domain, f2.domain with
    | some c1, some c2 =>
      if st.exact_domain then
        some (setCol d1 var (fun r => getVal r c1), setCol d2 var (fun r => getVal r c2))
      else
        some (setCol d1 var (fun r => optToVal (extract_domain (cellStr (getVal r c1)))),
              setCol d2 var (fun r => optToVal (extract_domain (cellStr (getVal r c2)))))
    | _, _ => none
  else if feature = "phone" then
    match f1.phone, f2.phone, f1.country, f2.country with
    | some p1, some p2, some c1, some c2 =>
      some (setCol d1 var (fun r =>
              optToVal (Phone.format ext.lib ext.codes (cellStr (getVal r p1)) (cellStr (getVal r c1)))),
            setCol d2 var (fun r =>
              optToVal (Phone.format ext.lib ext.codes (cellStr (getVal r p2)) (cellStr (getVal r c2)))))
    | _, _, _, _ => none
  else none

/-- The generic decorator around one feature matcher (matcher.py lines
116-168): when both frames declare the role, copy both frames, drop rows
with a missing role value, set the var column from the role column, run
the feature body, drop rows whose var is missing, left-join on var, drop
pairs with a missing right index, keep the two index columns and var, and
tag every row with the feature name in match_type.  None models both the
missing-role no-op and a body returning False. -/
def Matcher.matchFeature (ext : PhoneExt) (st : MState) (f1 f2 : Frame)
    (feature : String) : Option DF :=
  match f1.role feature, f2.role feature with
  | some c1, some c2 =>
    let var := feature ++ "_fmt"
    let d1 := setCol (dropna f1.data c1) var (fun r => getVal r c1)
    let d2 := setCol (dropna f2.data c2) var (fun r => getVal r c2)
    match Matcher.featureBody ext st f1 f2 feature var d1 d2 with
    | none => none
    | some (d1, d2) =>
      let m := mergeLeft (dropna d1 var) (dropna d2 var) var
      let m := m.filter (fun r => !(isNullV (getVal r f2.index)))
      let m := selectCols m [f1.index, f2.index, var]
      some (setCol m "match_type" (fun _ => Value.str (S feature)))
  | _, _ => none

/-- The per-feature loop of run (matcher.py lines 202-206): each candidate
feature is evaluated and its outcome stored on the instance. -/
def Matcher.featureResults (ext : PhoneExt) (st : MState) (f1 f2 : Frame) :
    List (String × Option DF) :=
  features_candidates.map (fun f => (f, Matcher.matchFeature ext st f1 f2 f))

/-- Read a stored per-feature outcome; pd.concat treats a missing entry as
contributing no rows. -/
def lookupDF (rs : List (String × Option DF)) (f : String) : DF :=
  match rs.find? (fun p => p.1 = f) with
  | some p => p.2.getD []
  | none => []

/-- The features_processed list after one more run: the generic wrapper
appends every feature whose body ran (matcher.py line 152) to the list the
instance accumulated across earlier runs. -/
def Matcher.newProcessed (ext : PhoneExt) (st : MState) (f1 f2 : Frame) : List String :=
  st.features_processed ++
    (Matcher.featureResults ext st f1 f2).filterMap
      (fun p => if p.2.isSome then some p.1 else none)

/-- The concatenation of matcher.py lines 208-210: one block per entry of
features_processed, reading the per-feature outcome stored this run. -/
def Matcher.allMatches (ext : PhoneExt) (st : MState) (f1 f2 : Frame) : DF :=
  ((Matcher.newProcessed ext st f1 f2).map
    (lookupDF (Matcher.featureResults ext st f1 f2))).flatten

/-- One step of the column-reordering loop of matcher.py lines 236-238:
pop the column and insert it first. -/
def moveFront (df : DF) (c : String) : DF :=
  df.map (fun r => (c, getVal r c) :: r.filter (fun p => p.1 ≠ c))

/-- The retention test of matcher.py lines 241-245: keep a row when its
match_count is at least 2 or its match_type is the literal domain-only
label. -/
def Matcher.retain (r : Row) : Bool :=
  natVal (getVal r "match_count") ≥ 2 ||
  getVal r "match_type" = Value.str (S "[\x22domain\x22]")

/-- Matcher.run (matcher.py lines 200-250): run every feature matcher,
concatenate the outcomes of the processed features, aggregate per pair,
join both frames back on their index columns, sort descending on
(match_count, match_type), move the feature and summary columns to the
front (lines 227-238), filter by the retention test, and store the result.
The updated instance state is returned with the result; run on a Matcher
missing a frame attribute is an AttributeError, modelled as none. -/
def Matcher.run (ext : PhoneExt) (st : MState) : Option (MState × DF) :=
  match st.frame1, st.frame2 with
  | some f1, some f2 =>
    let np := Matcher.newProcessed ext st f1 f2
    let all := Matcher.allMatches ext st f1 f2
    let agg := aggMatches all f1.index f2.index
    let res := mergeInner f1.data agg f1.index
    let res := mergeInner res f2.data f2.index
    let res := isort rowDescLe res
    let colOrder :=
      (np.flatMap (fun f => [(f1.role f).getD "", (f2.role f).getD ""])) ++
        ["match_count", "match_type"]
    let res := colOrder.foldl moveFront res
    let res := res.filter Matcher.retain
    some ({ st with features_processed := np }, res)
  | _, _ => none

/-- Index of the first group containing an element. -/
def findGroupIdx [DecidableEq α] : List (List α) → α → Option Nat
  | [], _ => none
  | g :: gs, a => if g.contains a then some 0 else (findGroupIdx gs a).map (fun i => i + 1)

/-- Apply a function at one position of a list. -/
def updateAt (i : Nat) (f : β → β) : List β → List β
  | [] => []
  | b :: bs =>
    match i with
    | 0 => f b :: bs
    | Nat.succ i' => b :: updateAt i' f bs

/-- Remove the element at one position of a list. -/
def removeAt (i : Nat) : List β → List β
  | [] => []
  | b :: bs =>
    match i with
    | 0 => bs
    | Nat.succ i' => b :: removeAt i' bs

/-- Modelled from the spec: the Grouper of dedupe mode (spec sections 4.6,
4.7 and 9) is not present under src — no dedupe entry point or match_group
assignment exists in matcher.py — so it is modelled from the spec words: a
disjoint-set structure over the record identifiers of the retained pairs,
in which processing a pair starts a new group when neither end is known,
extends an existing group when one end is known, and, when the two ends lie
in existing, different groups, merges those two groups into one. -/
def addPair [DecidableEq α] (groups : List (List α)) (a b : α) : List (List α) :=
  match findGroupIdx groups a, findGroupIdx groups b with
  | none, none => groups ++ [[a, b]]
  | some i, none => updateAt i (fun g => g ++ [b]) groups
  | none, some j => updateAt j (fun g => g ++ [a]) groups
  | some i, some j =>
    if i = j then groups
    else removeAt j (updateAt i (fun g => g ++ groups.getD j []) groups)

/-- Modelled from the spec: dedupe-mode grouping processes every retained
pair in order over an initially empty structure. -/
def buildGroups [DecidableEq α] (pairs : List (α × α)) : List (List α) :=
  pairs.foldl (fun g p => addPair g p.1 p.2) []

/-- Modelled from the spec: the match_group id assigned to a record is the
index of its group after all retained pairs are processed. -/
def match_group [DecidableEq α] (pairs : List (α × α)) (x : α) : Option Nat :=
  findGroupIdx (buildGroups pairs) x

/-- Two elements lie in one group of the structure. -/
def sameGroup (G : List (List α)) (x y : α) : Prop :=
  ∃ g, g ∈ G ∧ x ∈ g ∧ y ∈ g

/-- The groups are pairwise disjoint (each identifier belongs to at most
one group). -/
def GroupsDisjoint (G : List (List α)) : Prop :=
  G.Pairwise (fun g h => ∀ x, x ∈ g → x ∉ h)

/-- A heap of DataFrame objects, for observing which objects the pipeline
mutates: Python-level aliasing is made explicit by giving every pandas
object a cell and modelling in-place operations as writes to a cell. -/
abbrev Heap := List DF

/-- Read an object. -/
def hGet (h : Heap) (r : Nat) : DF := h.getD r []

/-- Create an object. -/
def hAlloc (h : Heap) (d : DF) : Heap × Nat := (h ++ [d], h.length)

/-- Mutate an object in place. -/
def hSet (h : Heap) (r : Nat) (d : DF) : Heap := h.set r d

/-- A Frame whose data attribute is a heap reference. -/
structure FrameH where
  dataRef : Nat
  name : String
  index : String
  domain : Option String
  address : Option String
  phone : Option String
  country : Option String
  entity_name : Option String
  suffix : String

/-- Dynamic role lookup on a heap-based Frame. -/
def FrameH.role (f : FrameH) : String → Option String
  | "domain" => f.domain
  | "phone" => f.phone
  | "address" => f.address
  | "entity_name" => f.entity_name
  | _ => none

/-- Frame.__init__ (matcher.py lines 15-37) with explicit object identity:
line 26 copies the caller's object into a fresh one, and line 37 rebinds
the data attribute to the fresh object add_suffix returns; the caller's
object is never written. -/
def Frame.initH (h : Heap) (dataRef : Nat) (name : String) (index : String)
    (domain address phone country entity_name : Option String) : Heap × FrameH :=
  let p1 := hAlloc h (hGet h dataRef)
  let p2 := hAlloc p1.1 (addSuffix ("_" ++ name) (hGet p1.1 p1.2))
  (p2.1,
   { dataRef := p2.2
     name := name
     index := index ++ "_" ++ name
     domain := domain.map (fun c => c ++ "_" ++ name)
     address := address.map (fun c => c ++ "_" ++ name)
     phone := phone.map (fun c => c ++ "_" ++ name)
     country := country.map (fun c => c ++ "_" ++ name)
     entity_name := entity_name.map (fun c => c ++ "_" ++ name)
     suffix := "_" ++ name })

/-- The in-place effects the feature body applies to the wrapper's two
frame copies (matcher.py lines 170-198), as writes to their cells; for the
domain body, lines 189-190 build the denylist-filtered frames as fresh
objects and bind them to body-local names only, modelled as allocations
whose references are discarded. -/
def Matcher.featureBodyH (ext : PhoneExt) (st : MState) (f1 f2 : FrameH)
    (feature : String) (var : String) (h : Heap) (r1 r2 : Nat) : Heap × Bool :=
  if feature = "entity_name" || feature = "address" then
    let h := hSet h r1 (setCol (hGet h r1) var (fun r => Value.str (clean_field (cellStr (getVal r var)))))
    let h := hSet h r2 (setCol (hGet h r2) var (fun r => Value.str (clean_field (cellStr (getVal r var)))))
    (h, true)
  else if feature = "domain" then
    match f1.domain, f2.domain with
    | some c1, some c2 =>
      let h :=
        if st.exact_domain then
          hSet (hSet h r1 (setCol (hGet h r1) var (fun r => getVal r c1)))
            r2 (setCol (hGet h r2) var (fun r => getVal r c2))
        else
          hSet (hSet h r1 (setCol (hGet h r1) var (fun r => optToVal (extract_domain (cellStr (getVal r c1))))))
            r2 (setCol (hGet h r2) var (fun r => optToVal (extract_domain (cellStr (getVal r c2)))))
      let p1 := hAlloc h ((hGet h r1).filter (fun r =>
        !(match getVal r var with
          | Value.str s => st.ignored_domains.contains s
          | _ => false)))
      let p2 := hAlloc p1.1 ((hGet p1.1 r2).filter (fun r =>
        !(match getVal r var with
          | Value.str s => st.ignored_domains.contains s
          | _ => false)))
      (p2.1, true)
    | _, _ => (h, true)
  else if feature = "phone" then
    match f1.phone, f2.phone, f1.country, f2.country with
    | some p1, some p2, some c1, some c2 =>
      let h := hSet h r1 (setCol (hGet h r1) var (fun r =>
        optToVal (Phone.format ext.lib ext.codes (cellStr (getVal r p1)) (cellStr (getVal r c1)))))
      let h := hSet h r2 (setCol (hGet h r2) var (fun r =>
        optToVal (Phone.format ext.lib ext.codes (cellStr (getVal r p2)) (cellStr (getVal r c2)))))
      (h, true)
    | _, _, _, _ => (h, false)
  else (h, true)

/-- The opening of the generic wrapper with explicit object identity
(matcher.py lines 138-145): allocate the two frame copies, drop rows with
a missing role value in place, and set the var column in place; returns
the heap and the two fresh references. -/
def Matcher.mfPrep (f1 f2 : FrameH) (c1 c2 var : String) (h : Heap) :
    Heap × Nat × Nat :=
  let p1 := hAlloc h (hGet h f1.dataRef)
  let p2 := hAlloc p1.1 (hGet p1.1 f2.dataRef)
  let h2 := hSet p2.1 p1.2 (dropna (hGet p2.1 p1.2) c1)
  let h3 := hSet h2 p2.2 (dropna (hGet h2 p2.2) c2)
  let h4 := hSet h3 p1.2 (setCol (hGet h3 p1.2) var (fun r => getVal r c1))
  let h5 := hSet h4 p2.2 (setCol (hGet h4 p2.2) var (fun r => getVal r c2))
  (h5, p1.2, p2.2)

/-- The generic wrapper (matcher.py lines 116-168) with explicit object
identity: lines 138-139 allocate the two copies; the dropna and column
assignments mutate only those copies; the merge and everything after it
build fresh objects from their values, modelled purely. -/
def Matcher.matchFeatureH (ext : PhoneExt) (st : MState) (f1 f2 : FrameH)
    (feature : String) (h : Heap) : Heap × Option DF :=
  match f1.role feature, f2.role feature with
  | some c1, some c2 =>
    let var := feature ++ "_fmt"
    let t := Matcher.mfPrep f1 f2 c1 c2 var h
    let pb := Matcher.featureBodyH ext st f1 f2 feature var t.1 t.2.1 t.2.2
    if pb.2 then
      let h2 := hSet pb.1 t.2.1 (dropna (hGet pb.1 t.2.1) var)
      let h3 := hSet h2 t.2.2 (dropna (hGet h2 t.2.2) var)
      let m := mergeLeft (hGet h3 t.2.1) (hGet h3 t.2.2) var
      let m := m.filter (fun r => !(isNullV (getVal r f2.index)))
      let m := selectCols m [f1.index, f2.index, var]
      (h3, some (setCol m "match_type" (fun _ => Value.str (S feature))))
    else (pb.1, none)
  | _, _ => (h, none)

/-- Matcher.run (matcher.py lines 200-250) with explicit object identity
for the per-feature stage; the concatenation, aggregation, joins, sort,
column reordering and filtering of lines 208-246 operate on objects those
very lines create, and are modelled purely from the observed values. -/
def Matcher.runH (ext : PhoneExt) (st : MState) (f1 f2 : FrameH) (h : Heap) :
    Heap × DF :=
  let step := features_candidates.foldl
    (fun (acc : Heap × List (String × Option DF)) feature =>
      let p := Matcher.matchFeatureH ext st f1 f2 feature acc.1
      (p.1, acc.2 ++ [(feature, p.2)]))
    (h, [])
  let h := step.1
  let results := step.2
  let np := st.features_processed ++
    results.filterMap (fun p => if p.2.isSome then some p.1 else none)
  let all := (np.map (lookupDF results)).flatten
  let agg := aggMatches all f1.index f2.index
  let res := mergeInner (hGet h f1.dataRef) agg f1.index
  let res := mergeInner res (hGet h f2.dataRef) f2.index
  let res := isort rowDescLe res
  let colOrder :=
    (np.flatMap (fun f => [(f1.role f).getD "", (f2.role f).getD ""])) ++
      ["match_count", "match_type"]
  let res := colOrder.foldl moveFront res
  (h, res.filter Matcher.retain)

/-- The Filter contract as the spec states it (section 4.5): retain a
match summary row when its match_count reaches the threshold or its
match_type label is on the allow-list, and its label is not on the
deny-list.  Stated from the spec words, to be compared with the retention
test of the source. -/
def specRetain (threshold : Nat) (allow deny : List Str) (r : Row) : Bool :=
  (natVal (getVal r "match_count") ≥ threshold ||
    allow.contains (strVal (getVal r "match_type"))) &&
  !(deny.contains (strVal (getVal r "match_type")))

/-- The Aggregator label as the spec states it (section 4.4): the sorted
list of matched feature names, serialized to json.  Stated from the spec
words, to be compared with the label the source computes. -/
def specMatchType (names : List Str) : Str :=
  jsonList ((isort pyLexLe names).map Value.str)

/-- The country resolution as the spec states it (section 4.1): resolve
the country, whether ISO-2, ISO-3 or a free-text name in the table, to the
ISO-2 region the phone library receives.  Stated from the spec words, to
be compared with the inline resolution of Phone.format. -/
def specResolveRegion (codes : List CodeRow) (country : Str) : Str :=
  let c := pyLower country
  pyUpper
    (match lookupIso (fun r => r.iso_long) c codes with
     | some iso => iso
     | none =>
       match lookupIso (fun r => r.country) c codes with
       | some iso => iso
       | none => c)

/-- A phone boundary that never parses; the pipeline examples below do not
declare phone roles. -/
def noPhone : PhoneExt := { lib := fun _ _ => none, codes := [] }

/-- A phone library model reflecting the documented boundary (spec section
6: parse_and_format returns an E.164 string or an error): a number already
in international form parses under any region, anything else fails.  This
is how the phonenumbers library behaves on plus-prefixed input. -/
def intlLib : Str → Str → Option Str :=
  fun p _ => if p.head? = some '+' then some p else none

/-- A small country-code table: one row, for the United States. -/
def exCodes : List CodeRow :=
  [{ iso := S "us", iso_long := S "usa", country := S "united states" }]

/-- Left side for the denylist scenario: one record whose domain cell is a
denylisted shared domain. -/
def dfC2L : DF := [[("id", Value.str (S "1")), ("web", Value.str (S "gmail.com"))]]

/-- Right side for the denylist scenario. -/
def dfC2R : DF := [[("id", Value.str (S "a")), ("web", Value.str (S "gmail.com"))]]

/-- A Matcher with gmail.com on the ignored-domains list and the two
one-row sides registered on their domain columns. -/
def stC2 : MState :=
  (Matcher.set_df
    (Matcher.set_df (Matcher.init false [S "gmail.com"])
      dfC2L "l" "id" (some "web") none none none none).2
    dfC2R "r" "id" (some "web") none none none none).2

/-- Left side for the idempotence scenario: one record with only an entity
name. -/
def dfC3L : DF := [[("id", Value.str (S "1")), ("nm", Value.str (S "acme"))]]

/-- Right side for the idempotence scenario. -/
def dfC3R : DF := [[("id", Value.str (S "a")), ("nm", Value.str (S "acme"))]]

/-- A Matcher with the two one-row sides registered on their entity-name
columns only. -/
def stC3 : MState :=
  (Matcher.set_df
    (Matcher.set_df (Matcher.init false [])
      dfC3L "l" "id" none none none none (some "nm")).2
    dfC3R "r" "id" none none none none (some "nm")).2

/-- Left side for the label-order scenario: one record with a domain and
an address. -/
def dfC4L : DF :=
  [[("id", Value.str (S "1")), ("web", Value.str (S "acme.com")),
    ("addr", Value.str (S "12 main st"))]]

/-- Right side for the label-order scenario. -/
def dfC4R : DF :=
  [[("id", Value.str (S "a")), ("web", Value.str (S "acme.com")),
    ("addr", Value.str (S "12 main st"))]]

/-- A Matcher with the two one-row sides registered on their domain and
address columns. -/
def stC4 : MState :=
  (Matcher.set_df
    (Matcher.set_df (Matcher.init false [])
      dfC4L "l" "id" (some "web") (some "addr") none none none).2
    dfC4R "r" "id" (some "web") (some "addr") none none none).2

/-- Projection of a result table to the cells the scenario theorems talk
about: left id, right id, match_count, match_type. -/
def resultView (df : DF) : List (Value × Value × Value × Value) :=
  df.map (fun r =>
    (getVal r "id_l", getVal r "id_r", getVal r "match_count", getVal r "match_type"))

/-- The features whose candidate table contains a given pair key, in
processing order, as match_type cells. -/
def matchedFeats (L : List (String × DF)) (i1 i2 : String) (k : Value × Value) : List Value :=
  (L.filter (fun p =>
    !(p.2.filter (fun r => decide ((getVal r i1, getVal r i2) = k))).isEmpty)).map
    (fun p => Value.str (S p.1))

/-!
## Theorems

Generic list lemmas first, then one theorem per claim (with its
counterexample and witness where applicable).
-/

theorem insertLe_perm (le : α → α → Bool) (a : α) (l : List α) :
    (insertLe le a l).Perm (a :: l) := by
  induction l with
  | nil => exact List.Perm.refl _
  | cons b bs ih =>
    unfold insertLe
    by_cases h : le a b = true
    · simp [h]
    · rw [if_neg (by simp [h])]
      exact (List.Perm.cons b ih).trans (List.Perm.swap a b bs)

theorem isort_perm (le : α → α → Bool) (l : List α) : (isort le l).Perm l := by
  induction l with
  | nil => exact List.Perm.refl _
  | cons a as ih =>
    exact (insertLe_perm le a (isort le as)).trans (List.Perm.cons a ih)

theorem mem_isort (le : α → α → Bool) (l : List α) (x : α) :
    x ∈ isort le l ↔ x ∈ l :=
  (isort_perm le l).mem_iff

theorem find?_map_set (r : Row) (c : String) (v : Value)
    (h : (r.find? (fun p => p.1 = c)).isSome = true) :
    (r.map (fun p => if p.1 = c then (c, v) else p)).find? (fun p => p.1 = c) =
      some (c, v) := by
  induction r with
  | nil => simp at h
  | cons p ps ih =>
    by_cases hp : p.1 = c
    · rw [List.map_cons, if_pos hp, List.find?_cons_of_pos _ (by simp)]
    · rw [List.find?_cons_of_neg _ (by simpa using hp)] at h
      rw [List.map_cons, if_neg hp, List.find?_cons_of_neg _ (by simpa using hp)]
      exact ih h

theorem getVal_setColRow (r : Row) (c : String) (v : Value) :
    getVal (setColRow r c v) c = v := by
  unfold setColRow
  by_cases h : (r.find? (fun p => p.1 = c)).isSome = true
  · rw [if_pos h]
    unfold getVal
    rw [find?_map_set r c v h]
  · rw [if_neg h]
    unfold getVal
    have hn : List.find? (fun p => decide (p.1 = c)) r = none :=
      Option.not_isSome_iff_eq_none.mp h
    rw [List.find?_append, hn, Option.none_or, List.find?_cons_of_pos _ (by simp)]

/-- C2: the claim says rows whose canonical domain key is on the
ignored-domains list emit no candidate pair from the domain Feature
Matcher.  The code intends this (it loads domains_ignored.txt and filters
with isin at matcher.py lines 189-190, as the earlier non-decorated
version of the matcher did effectively), but inside the decorated body the
filter rebinds the body-local frame names, which the generic wrapper never
reads, so the filter has no effect: with gmail.com on the denylist and one
record on each side whose domain cell is gmail.com, run retains the
candidate pair (1, a) with the domain-only label. -/
theorem c2_denylist_bug_eval :
    stC2.ignored_domains.contains (S "gmail.com") = true ∧
    extract_domain (S "gmail.com") = some (S "gmail.com") ∧
    (Matcher.run noPhone stC2).map (fun p => resultView p.2) =
      some [(Value.str (S "1"), Value.str (S "a"), Value.nat 1,
             Value.str (S "[\x22domain\x22]"))] := by
  refine ⟨by decide, by decide, by decide⟩

/-- C3 counterexample: calling run a second time on the same Matcher with
the same two Frames does not reproduce the first result: on two one-row
sides matching on entity name only, the first run retains nothing
(match_count 1, label not domain-only), while the second run, having
appended entity_name to features_processed again, counts the same feature
twice and retains the pair with match_count 2 and a duplicated label. -/
theorem c3_counterexample :
    (Matcher.run noPhone stC3).map (fun p => resultView p.2) = some [] ∧
    ((Matcher.run noPhone stC3).bind (fun p => Matcher.run noPhone p.1)).map
        (fun p => resultView p.2) =
      some [(Value.str (S "1"), Value.str (S "a"), Value.nat 2,
             Value.str (S "[\x22entity_name\x22, \x22entity_name\x22]"))] := by
  refine ⟨by decide, by decide⟩

/-- C4 counterexample: the aggregated match_type label is not the sorted
feature list: a pair matching on domain and address is labelled in
processing order, domain before address, while the sorted serialized label
the claim requires would put address first. -/
theorem c4_counterexample :
    (Matcher.run noPhone stC4).map (fun p => resultView p.2) =
      some [(Value.str (S "1"), Value.str (S "a"), Value.nat 2,
             Value.str (S "[\x22domain\x22, \x22address\x22]"))] ∧
    specMatchType [S "domain", S "address"] = S "[\x22address\x22, \x22domain\x22]" ∧
    S "[\x22domain\x22, \x22address\x22]" ≠ S "[\x22address\x22, \x22domain\x22]" := by
  refine ⟨by decide, by decide, by decide⟩

/-- C5 counterexample: the retention rule is not parameterized by a
per-call threshold, allow-list and deny-list: no choice of those
parameters makes the spec filter coincide with the retention test the
code applies, because the code keeps every row with match_count 2 even
when the claimed threshold is 3 and the allow-list is empty. -/
theorem c5_counterexample :
    ¬ (∀ (threshold : Nat) (allow deny : List Str) (r : Row),
        Matcher.retain r = specRetain threshold allow deny r) := by
  intro h
  have h2 := h 3 [] [] [("match_count", Value.nat 2)]
  revert h2
  decide

/-- C5 (amended): the retention rule of run is the fixed instance of the
spec filter at threshold 2, allow-list containing exactly the domain-only
label, and an empty deny-list; no per-call configuration exists. -/
theorem c5_retention_fixed (r : Row) :
    Matcher.retain r = specRetain 2 [S "[\x22domain\x22]"] [] r := by
  unfold Matcher.retain specRetain
  cases h : getVal r "match_type" with
  | null =>
    simp [strVal]
    intro hx
    exact absurd hx (by decide)
  | str s =>
    simp only [strVal]
    by_cases hs : s = S "[\x22domain\x22]"
    · simp [hs]
    · simp [hs, List.contains_cons]
  | nat n =>
    simp [strVal]
    intro hx
    exact absurd hx (by decide)

/-- C6 counterexample: phone normalization does not return null whenever
the country is unresolved.  The country Zyzzania resolves through neither
the ISO-3 column nor the country-name column of the table, so the code
passes it through uppercased as the region; a phone library conforming to
the documented boundary (and matching the behaviour of phonenumbers on
international-format input) parses a plus-prefixed number under any
region, so Phone.format returns a number, not null. -/
theorem c6_counterexample :
    lookupIso (fun r => r.iso_long) (pyLower (S "Zyzzania")) exCodes = none ∧
    lookupIso (fun r => r.country) (pyLower (S "Zyzzania")) exCodes = none ∧
    Phone.format intlLib exCodes (S "+14155552671") (S "Zyzzania") =
      some (S "+14155552671") := by
  refine ⟨by decide, by decide, by decide⟩

/-- C6 (amended): Phone.format resolves the country through the table
(lowercased; the ISO-3 column first, then the country-name column),
uppercases the result, and returns exactly what the phone library returns
for that region — null exactly on library failure, with every library
exception mapped to null and no exception escaping; an unresolved country
is passed through to the library rather than short-circuiting to null. -/
theorem c6_format_delegates (lib : Str → Str → Option Str) (codes : List CodeRow)
    (phone country : Str) :
    Phone.format lib codes phone country = lib phone (specResolveRegion codes country) ∧
    (lookupIso (fun r => r.iso_long) (pyLower country) codes = none →
     lookupIso (fun r => r.country) (pyLower country) codes = none →
     Phone.format lib codes phone country = lib phone (pyUpper (pyLower country))) := by
  constructor
  · rfl
  · intro h1 h2
    unfold Phone.format
    simp only [h1, h2]

/-- C6 witness: the delegation theorem applied at the Zyzzania input. -/
theorem c6_format_delegates_witness :
    Phone.format intlLib exCodes (S "+14155552671") (S "Zyzzania") =
      intlLib (S "+14155552671") (pyUpper (pyLower (S "Zyzzania"))) :=
  (c6_format_delegates intlLib exCodes (S "+14155552671") (S "Zyzzania")).2
    (by decide) (by decide)

/-- C7 counterexample: for a punctuation-only input the token list is
empty after cleaning, yet clean_field returns the non-null two-character
string of an empty Python list rather than null. -/
theorem c7_counterexample :
    splitWs (removePunct (pyLower (S "..."))) = [] ∧
    clean_field (S "...") = S "[]" ∧
    Value.str (clean_field (S "...")) ≠ Value.null := by
  refine ⟨by decide, by decide, by decide⟩

/-- C7 (amended): on an empty token list clean_field returns the
non-null key for an empty serialized list, and because every cleaned cell
is a string, the null-drop on the computed key column after the text-bag
body removes no row at all: rows with empty token lists stay in candidate
generation, sharing that key. -/
theorem c7_empty_tokens_nonnull_key :
    (∀ x : Str, splitWs (removePunct (pyLower x)) = [] → clean_field x = S "[]") ∧
    (∀ (df : DF) (var : String),
      dropna (setCol df var (fun r => Value.str (clean_field (cellStr (getVal r var))))) var =
        setCol df var (fun r => Value.str (clean_field (cellStr (getVal r var))))) := by
  constructor
  · intro x hx
    unfold clean_field
    rw [hx]
    rfl
  · intro df var
    unfold dropna
    rw [List.filter_eq_self]
    intro r hr
    unfold setCol at hr
    rcases List.mem_map.mp hr with ⟨r0, _, rfl⟩
    rw [getVal_setColRow]
    rfl

/-- C7 witness: the amended theorem applied at the punctuation-only
input. -/
theorem c7_empty_tokens_nonnull_key_witness : clean_field (S "...") = S "[]" :=
  c7_empty_tokens_nonnull_key.1 (S "...") (by decide)

/-- C8 counterexample: text-bag normalization is not idempotent:
renormalizing a normalized value re-tokenizes the serialized list form
(the brackets glue onto the outer tokens), producing a different key. -/
theorem c8_counterexample :
    clean_field (clean_field (S "a b")) ≠ clean_field (S "a b") ∧
    clean_field (S "a b") = S "[\x27a\x27, \x27b\x27]" ∧
    clean_field (clean_field (S "a b")) = S "[\x27[a\x27, \x27b]\x27]" := by
  refine ⟨by decide, by decide, by decide⟩

/-- C9: set_df fails when the side name was already used or when more
than two Frames would be registered, and on such a call the Matcher state
is unchanged — no third Frame is stored, no name recorded, the counter
untouched.  The source raises before any mutation: the counter guard at
matcher.py line 84 (whose ValidationError is an undefined name, so the
raise surfaces as a NameError — still an immediate failure) and the
duplicate-name ValueError at line 88 both precede the Frame construction. -/
theorem c9_set_df_errors (st : MState) (data : DF) (name index : String)
    (domain address phone country entity_name : Option String)
    (h : st.counter > 2 ∨ st.names.contains name = true) :
    ∃ e, Matcher.set_df st data name index domain address phone country entity_name =
      (Except.error e, st) := by
  unfold Matcher.set_df
  by_cases h1 : st.counter > 2
  · exact ⟨SetDfErr.validation, by rw [if_pos h1]⟩
  · rcases h with h | h2
    · exact absurd h h1
    · refine ⟨SetDfErr.nameTaken, ?_⟩
      rw [if_neg h1, if_pos h2]

/-- C9 witness: a third registration on a Matcher that already holds two
Frames errors and leaves the state untouched. -/
theorem c9_set_df_errors_witness :
    ∃ e, Matcher.set_df stC2 [] "x" "id" none none none none none =
      (Except.error e, stC2) :=
  c9_set_df_errors stC2 [] "x" "id" none none none none none (Or.inl (by decide))

theorem count_br_removePunct (s : Str) :
    (removePunct s).count '[' = s.count '[' :=
  List.count_filter (by decide)

theorem count_br_pyLower (s : Str) : s.count '[' ≤ (pyLower s).count '[' := by
  unfold pyLower
  rw [List.count_eq_countP, List.count_eq_countP, List.countP_map]
  apply List.countP_mono_left
  intro x _ hx
  have hx' : x = '[' := by simpa using hx
  subst hx'
  decide

theorem hexDigit_ne_br (n : Nat) (h : n < 16) : hexDigit n ≠ '[' := by
  unfold hexDigit
  interval_cases n <;> decide

theorem count_br_escape (c : Char) : (pyEscapeChar c).count '[' = [c].count '[' := by
  by_cases h : c = '['
  · subst h
    decide
  · have h0 : ([c] : Str).count '[' = 0 := by
      simp [List.count_cons, h]
    rw [h0]
    unfold pyEscapeChar
    split_ifs with h1 h2 h3 h4 h5
    · decide
    · decide
    · decide
    · decide
    · have h5x : c.toNat < 32 ∨ c.toNat = 127 := by simpa using h5
      have hq : c.toNat / 16 < 16 := by omega
      have hr : c.toNat % 16 < 16 := by omega
      rw [List.count_eq_zero]
      intro hm
      simp only [List.mem_cons, List.not_mem_nil, or_false] at hm
      rcases hm with hm | hm | hm | hm
      · exact absurd hm (by decide)
      · exact absurd hm (by decide)
      · exact (hexDigit_ne_br _ hq) hm.symm
      · exact (hexDigit_ne_br _ hr) hm.symm
    · simp [List.count_cons, h]

theorem count_br_flatMap_escape (t : Str) :
    (t.flatMap pyEscapeChar).count '[' = t.count '[' := by
  induction t with
  | nil => rfl
  | cons c cs ih =>
    rw [List.flatMap_cons, List.count_append, ih, count_br_escape,
      List.count_cons, List.count_cons]
    simp [Nat.add_comm]

theorem count_br_pyReprTok (t : Str) : (pyReprTok t).count '[' = t.count '[' := by
  unfold pyReprTok
  simp +decide [List.count_cons, List.count_append, count_br_flatMap_escape, quoteChar]

theorem count_br_joinSep (ts : List Str) :
    (joinSep (S ", ") ts).count '[' = (ts.map (fun t => t.count '[')).sum := by
  induction ts with
  | nil => rfl
  | cons t ts ih =>
    cases ts with
    | nil => simp [joinSep]
    | cons u us =>
      have hsep : (S ", ").count '[' = 0 := by decide
      rw [show joinSep (S ", ") (t :: u :: us) =
          t ++ (S ", ") ++ joinSep (S ", ") (u :: us) from rfl,
        List.count_append, List.count_append, ih, hsep, List.map_cons,
        List.sum_cons]
      simp only [List.map_cons, List.sum_cons]
      omega

theorem count_br_pyReprStrList (ts : List Str) :
    (pyReprStrList ts).count '[' = 1 + (ts.map (fun t => t.count '[')).sum := by
  unfold pyReprStrList
  have hmap : (List.map (fun t => t.count '[') (ts.map pyReprTok)) =
      List.map (fun t => t.count '[') ts := by
    rw [List.map_map]
    exact List.map_congr_left (fun a _ => count_br_pyReprTok a)
  simp +decide [List.count_cons, List.count_append, count_br_joinSep, hmap]
  omega

theorem count_br_splitWsAux (s : Str) : ∀ cur : Str,
    ((splitWsAux cur s).map (fun t => t.count '[')).sum = cur.count '[' + s.count '[' := by
  induction s with
  | nil =>
    intro cur
    unfold splitWsAux
    by_cases h : cur.isEmpty = true
    · simp [h, List.isEmpty_iff.mp h]
    · simp [h, List.count_reverse]
  | cons c cs ih =>
    intro cur
    rw [show splitWsAux cur (c :: cs) =
        (if isPySpace c then
          (if cur.isEmpty then splitWsAux [] cs else cur.reverse :: splitWsAux [] cs)
        else splitWsAux (c :: cur) cs) from rfl]
    by_cases hsp : isPySpace c = true
    · have hcne : (c == '[') = false := by
        by_cases hc : c = '['
        · subst hc
          exact absurd hsp (by decide)
        · simpa using hc
      rw [if_pos hsp]
      by_cases hcur : cur.isEmpty = true
      · rw [if_pos hcur, ih [], List.isEmpty_iff.mp hcur]
        rw [List.count_cons, List.count_nil, hcne]
        simp
      · rw [if_neg hcur, List.map_cons, List.sum_cons, ih [],
          List.count_reverse, List.count_cons, List.count_nil, hcne]
        simp
    · rw [if_neg hsp, ih (c :: cur), List.count_cons, List.count_cons]
      omega

theorem count_br_splitWs (s : Str) :
    ((splitWs s).map (fun t => t.count '[')).sum = s.count '[' := by
  unfold splitWs
  rw [count_br_splitWsAux s []]
  simp

theorem sum_map_isort (le : Str → Str → Bool) (l : List Str) (f : Str → Nat) :
    ((isort le l).map f).sum = (l.map f).sum :=
  ((isort_perm le l).map f).sum_eq

theorem count_br_clean_field (x : Str) :
    (clean_field x).count '[' = 1 + (removePunct (pyLower x)).count '[' := by
  unfold clean_field
  rw [count_br_pyReprStrList, sum_map_isort, count_br_splitWs]

theorem clean_field_not_idempotent (x : Str) :
    clean_field (clean_field x) ≠ clean_field x := by
  intro hEq
  have h1 := count_br_clean_field (clean_field x)
  have h2 := count_br_removePunct (pyLower (clean_field x))
  have h3 := count_br_pyLower (clean_field x)
  have h4 := congrArg (fun l : Str => l.count '[') hEq
  simp only at h4
  omega

theorem replaceWWW_eq_self (l : Str) (h : ¬ (S "www.") <:+: l) : replaceWWW l = l := by
  induction l using replaceWWW.induct with
  | case1 rest =>
    exact absurd (List.IsPrefix.isInfix ⟨rest, rfl⟩) h
  | case2 c cs hpat ih =>
    have hstep : replaceWWW (c :: cs) = c :: replaceWWW cs := by
      rw [replaceWWW.eq_def]
      split
      · rename_i rest heq
        have hw : (S "www.") <:+: (c :: cs) := by
          rw [heq]
          exact List.IsPrefix.isInfix ⟨rest, rfl⟩
        exact (h hw).elim
      · rename_i c2 cs2 hpat2 heq
        injection heq with hc hcs
        subst hc
        subst hcs
        rfl
      · rename_i heq
        exact absurd heq (by simp)
    rw [hstep, ih (fun hi => h (List.infix_cons hi))]
  | case3 => rfl

theorem not_www_http (d : Str) (h : ¬ (S "www.") <:+: d) :
    ¬ (S "www.") <:+: (S "http://" ++ d) := by
  intro hi
  rw [show S "http://" ++ d = 'h' :: 't' :: 't' :: 'p' :: ':' :: '/' :: '/' :: d from rfl] at hi
  simp only [List.infix_cons_iff] at hi
  rcases hi with hp | hp | hp | hp | hp | hp | hp | hi
  · rcases List.cons_prefix_cons.mp hp with ⟨he, _⟩
    exact absurd he (by decide)
  · rcases List.cons_prefix_cons.mp hp with ⟨he, _⟩
    exact absurd he (by decide)
  · rcases List.cons_prefix_cons.mp hp with ⟨he, _⟩
    exact absurd he (by decide)
  · rcases List.cons_prefix_cons.mp hp with ⟨he, _⟩
    exact absurd he (by decide)
  · rcases List.cons_prefix_cons.mp hp with ⟨he, _⟩
    exact absurd he (by decide)
  · rcases List.cons_prefix_cons.mp hp with ⟨he, _⟩
    exact absurd he (by decide)
  · rcases List.cons_prefix_cons.mp hp with ⟨he, _⟩
    exact absurd he (by decide)
  · exact h hi

theorem urlNetloc_http (d : Str) (h1 : d.contains '/' = false)
    (h2 : d.contains '?' = false) (h3 : d.contains '#' = false) :
    urlNetloc (S "http://" ++ d) = d := by
  unfold urlNetloc
  rw [show S "http://" ++ d = 'h' :: 't' :: 't' :: 'p' :: ':' :: '/' :: '/' :: d from rfl]
  rw [show splitFirst ':' ('h' :: 't' :: 't' :: 'p' :: ':' :: '/' :: '/' :: d) =
      some (['h', 't', 't', 'p'], '/' :: '/' :: d) from rfl]
  show List.takeWhile (fun c => !(c = '/' || c = '?' || c = '#')) d = d
  refine List.takeWhile_eq_self_iff.mpr ?_
  intro x hx
  have hx1 : x ≠ '/' := fun he => by
    subst he
    simp at h1
    exact h1 hx
  have hx2 : x ≠ '?' := fun he => by
    subst he
    simp at h2
    exact h2 hx
  have hx3 : x ≠ '#' := fun he => by
    subst he
    simp at h3
    exact h3 hx
  simp [hx1, hx2, hx3]

theorem extract_domain_fixpoint (d : Str) (hne : d ≠ [])
    (hdot : d.contains '.' = true) (hat : d.contains '@' = false)
    (hw : ¬ (S "www.") <:+: d) (hh : (S "http").isPrefixOf d = false)
    (h1 : d.contains '/' = false) (h2 : d.contains '?' = false)
    (h3 : d.contains '#' = false) :
    extract_domain d = some d := by
  unfold extract_domain
  rw [hat]
  simp only [Bool.false_eq_true, if_false]
  rw [hh]
  simp only [Bool.false_eq_true, if_false]
  rw [replaceWWW_eq_self _ (not_www_http d hw), urlNetloc_http d h1 h2 h3]
  have hcond : (!d.isEmpty && d.contains '.') = true := by
    rw [hdot]
    simp [List.isEmpty_iff, hne]
  rw [if_pos hcond]

/-- C8 (amended): normalization is not idempotent for text_bag keys — for
every input, renormalizing the serialized token list yields a different
key, because the repr brackets re-tokenize and the bracket count grows by
one on each pass; domain extraction is idempotent exactly on well-behaved
outputs: every nonempty dotted string free of at signs, embedded www.
sequences, an http-shaped head, and URL separator characters is a
fix-point of extract_domain (outputs that do carry such fragments, e.g. a
www.-prefixed host extracted from an email address, re-extract to a
different value, as the counterexample file shows for clean_field). -/
theorem c8_idempotence :
    (∀ x : Str, clean_field (clean_field x) ≠ clean_field x) ∧
    (∀ d : Str, d ≠ [] → d.contains '.' = true → d.contains '@' = false →
      ¬ (S "www.") <:+: d → (S "http").isPrefixOf d = false →
      d.contains '/' = false → d.contains '?' = false → d.contains '#' = false →
      extract_domain d = some d) :=
  ⟨clean_field_not_idempotent, fun d h1 h2 h3 h4 h5 h6 h7 h8 =>
    extract_domain_fixpoint d h1 h2 h3 h4 h5 h6 h7 h8⟩

/-- C8 witness: the amended theorem applied at concrete inputs. -/
theorem c8_idempotence_witness :
    clean_field (clean_field (S "a b c")) ≠ clean_field (S "a b c") ∧
    extract_domain (S "acme.com") = some (S "acme.com") :=
  ⟨c8_idempotence.1 (S "a b c"),
   c8_idempotence.2 (S "acme.com") (by decide) (by decide) (by decide) (by decide)
     (by decide) (by decide) (by decide) (by decide)⟩

theorem featureBody_state_eq (ext : PhoneExt) (f1 f2 : Frame) (feature var : String)
    (d1 d2 : DF) (st st' : MState) (h : st.exact_domain = st'.exact_domain) :
    Matcher.featureBody ext st f1 f2 feature var d1 d2 =
      Matcher.featureBody ext st' f1 f2 feature var d1 d2 := by
  unfold Matcher.featureBody
  rw [h]

theorem matchFeature_state_eq (ext : PhoneExt) (f1 f2 : Frame) (feature : String)
    (st st' : MState) (h : st.exact_domain = st'.exact_domain) :
    Matcher.matchFeature ext st f1 f2 feature =
      Matcher.matchFeature ext st' f1 f2 feature := by
  unfold Matcher.matchFeature
  cases hr1 : f1.role feature with
  | none => rfl
  | some c1 =>
    cases hr2 : f2.role feature with
    | none => rfl
    | some c2 =>
      simp only
      rw [featureBody_state_eq ext f1 f2 feature _ _ _ st st' h]

theorem featureResults_state_eq (ext : PhoneExt) (f1 f2 : Frame)
    (st st' : MState) (h : st.exact_domain = st'.exact_domain) :
    Matcher.featureResults ext st f1 f2 = Matcher.featureResults ext st' f1 f2 := by
  unfold Matcher.featureResults
  exact List.map_congr_left (fun f _ => by
    rw [matchFeature_state_eq ext f1 f2 f st st' h])
theorem run_some_of_frames (ext : PhoneExt) (st : MState) (f1 f2 : Frame)
    (h1 : st.frame1 = some f1) (h2 : st.frame2 = some f2) :
    ∃ r, Matcher.run ext st =
      some ({ st with features_processed := Matcher.newProcessed ext st f1 f2 }, r) := by
  unfold Matcher.run
  rw [h1, h2]
  exact ⟨_, rfl⟩

/-- C3 (amended): run is not idempotent on a Matcher instance.  Each run
appends the processed features to features_processed, so on a fresh
Matcher the concatenated candidate table of the second run is exactly the
first run table followed by itself: every aggregated pair doubles its
match_count and repeats its label, and (as the counterexample shows) the
retained result set can differ.  Both runs complete, and the frames the
second run reads are the ones the first run read. -/
theorem c3_run_not_idempotent (ext : PhoneExt) (st : MState) (f1 f2 : Frame)
    (h1 : st.frame1 = some f1) (h2 : st.frame2 = some f2)
    (h0 : st.features_processed = []) :
    ∃ st1 r1, Matcher.run ext st = some (st1, r1) ∧
      st1.frame1 = some f1 ∧ st1.frame2 = some f2 ∧
      (∃ st2 r2, Matcher.run ext st1 = some (st2, r2)) ∧
      Matcher.allMatches ext st1 f1 f2 =
        Matcher.allMatches ext st f1 f2 ++ Matcher.allMatches ext st f1 f2 := by
  obtain ⟨r1, hrun1⟩ := run_some_of_frames ext st f1 f2 h1 h2
  refine ⟨_, r1, hrun1, h1, h2, ?_, ?_⟩
  · obtain ⟨r2, hrun2⟩ := run_some_of_frames ext
      { st with features_processed := Matcher.newProcessed ext st f1 f2 } f1 f2 h1 h2
    exact ⟨_, _, hrun2⟩
  · have hfr : Matcher.featureResults ext
        { st with features_processed := Matcher.newProcessed ext st f1 f2 } f1 f2 =
        Matcher.featureResults ext st f1 f2 :=
      featureResults_state_eq ext f1 f2 _ _ rfl
    have hnp1 : Matcher.newProcessed ext st f1 f2 =
        (Matcher.featureResults ext st f1 f2).filterMap
          (fun p => if p.2.isSome then some p.1 else none) := by
      unfold Matcher.newProcessed
      rw [h0, List.nil_append]
    have hnp2 : Matcher.newProcessed ext
        { st with features_processed := Matcher.newProcessed ext st f1 f2 } f1 f2 =
        Matcher.newProcessed ext st f1 f2 ++
          (Matcher.featureResults ext
            { st with features_processed := Matcher.newProcessed ext st f1 f2 } f1 f2).filterMap
            (fun p => if p.2.isSome then some p.1 else none) := rfl
    unfold Matcher.allMatches
    rw [hnp2, hfr, ← hnp1, List.map_append, List.flatten_append]

/-- C3 witness: the non-idempotence theorem applied to the concrete
entity-name Matcher. -/
theorem c3_run_not_idempotent_witness :
    ∃ st1 r1, Matcher.run noPhone stC3 = some (st1, r1) ∧
      st1.frame1 = some (Frame.init dfC3L "l" "id" none none none none (some "nm")) ∧
      st1.frame2 = some (Frame.init dfC3R "r" "id" none none none none (some "nm")) ∧
      (∃ st2 r2, Matcher.run noPhone st1 = some (st2, r2)) ∧
      Matcher.allMatches noPhone st1
          (Frame.init dfC3L "l" "id" none none none none (some "nm"))
          (Frame.init dfC3R "r" "id" none none none none (some "nm")) =
        Matcher.allMatches noPhone stC3
            (Frame.init dfC3L "l" "id" none none none none (some "nm"))
            (Frame.init dfC3R "r" "id" none none none none (some "nm")) ++
          Matcher.allMatches noPhone stC3
            (Frame.init dfC3L "l" "id" none none none none (some "nm"))
            (Frame.init dfC3R "r" "id" none none none none (some "nm")) :=
  c3_run_not_idempotent noPhone stC3
    (Frame.init dfC3L "l" "id" none none none none (some "nm"))
    (Frame.init dfC3R "r" "id" none none none none (some "nm")) rfl rfl rfl

theorem flatten_singleton_blocks (mtOf : Row → Value) :
    ∀ (L : List (String × DF)) (B : (String × DF) → List Row),
    (∀ p ∈ L, B p = [] ∨ ∃ r, B p = [r] ∧ mtOf r = Value.str (S p.1)) →
    (L.map (fun p => (B p).map mtOf)).flatten =
      (L.filter (fun p => !(B p).isEmpty)).map (fun p => Value.str (S p.1))
  | [], _, _ => rfl
  | p :: ps, B, h => by
    have hh := h p (List.mem_cons_self _ _)
    have ih := flatten_singleton_blocks mtOf ps B
      (fun q hq => h q (List.mem_cons_of_mem _ hq))
    rcases hh with he | ⟨r, hBr, hmt⟩
    · simp only [List.map_cons, List.flatten_cons, List.filter_cons, he]
      simpa using ih
    · simp only [List.map_cons, List.flatten_cons, List.filter_cons, hBr, hmt]
      simpa using ih
theorem getVal_agg_row (i1 i2 : String) (k1 k2 v3 v4 : Value)
    (hne : i1 ≠ i2) (hc1 : i1 ≠ "match_count") (ht1 : i1 ≠ "match_type")
    (hc2 : i2 ≠ "match_count") (ht2 : i2 ≠ "match_type") :
    getVal [(i1, k1), (i2, k2), ("match_count", v3), ("match_type", v4)] i1 = k1 ∧
    getVal [(i1, k1), (i2, k2), ("match_count", v3), ("match_type", v4)] i2 = k2 ∧
    getVal [(i1, k1), (i2, k2), ("match_count", v3), ("match_type", v4)] "match_count" = v3 ∧
    getVal [(i1, k1), (i2, k2), ("match_count", v3), ("match_type", v4)] "match_type" = v4 := by
  refine ⟨?_, ?_, ?_, ?_⟩
  · unfold getVal
    rw [List.find?_cons_of_pos _ (by simp)]
  · unfold getVal
    rw [List.find?_cons_of_neg _ (by simpa using hne),
      List.find?_cons_of_pos _ (by simp)]
  · unfold getVal
    rw [List.find?_cons_of_neg _ (by simpa using hc1),
      List.find?_cons_of_neg _ (by simpa using hc2),
      List.find?_cons_of_pos _ (by simp)]
  · unfold getVal
    rw [List.find?_cons_of_neg _ (by simpa using ht1),
      List.find?_cons_of_neg _ (by simpa using ht2),
      List.find?_cons_of_neg _ (by simp),
      List.find?_cons_of_pos _ (by simp)]
/-- C4 (amended): the aggregation over the union of the Feature Matcher
tables (each carrying its feature name as a constant match_type column
and contributing at most one row per pair, as the joins on unique indices
do) labels every aggregated pair with the json list of the matched
feature names in the order the tables were concatenated — the fixed run
order domain, phone, address, entity_name — not sorted, and sets
match_count to the number of matched features.  Equal feature-sets still
receive identical labels within a run because the processing order is
fixed. -/
theorem c4_match_type_in_run_order (L : List (String × DF)) (i1 i2 : String)
    (hne : i1 ≠ i2) (hc1 : i1 ≠ "match_count") (ht1 : i1 ≠ "match_type")
    (hc2 : i2 ≠ "match_count") (ht2 : i2 ≠ "match_type")
    (hconst : ∀ p ∈ L, ∀ r ∈ p.2, getVal r "match_type" = Value.str (S p.1))
    (honce : ∀ p ∈ L, ∀ k : Value × Value,
      ((p.2).filter (fun r => decide ((getVal r i1, getVal r i2) = k))).length ≤ 1)
    (row : Row) (hrow : row ∈ aggMatches (L.map Prod.snd).flatten i1 i2) :
    getVal row "match_count" =
      Value.nat (matchedFeats L i1 i2 (getVal row i1, getVal row i2)).length ∧
    getVal row "match_type" =
      Value.str (jsonList (matchedFeats L i1 i2 (getVal row i1, getVal row i2))) := by
  unfold aggMatches at hrow
  rw [mem_isort] at hrow
  rcases List.mem_map.mp hrow with ⟨k, hkmem, hkrow⟩
  rw [mem_isort, List.mem_dedup] at hkmem
  rcases List.mem_map.mp hkmem with ⟨r0, hr0, hk0⟩
  have hr0n := List.of_mem_filter hr0
  rw [Bool.and_eq_true] at hr0n
  have hk1n : isNullV k.1 = false := by
    rw [← hk0]
    simpa using hr0n.1
  have hk2n : isNullV k.2 = false := by
    rw [← hk0]
    simpa using hr0n.2
  subst hkrow
  have hgv := getVal_agg_row i1 i2 k.1 k.2
    (Value.nat ((((L.map Prod.snd).flatten.filter (fun r =>
        !(isNullV (getVal r i1)) && !(isNullV (getVal r i2)))).filter
      (fun r => decide ((getVal r i1, getVal r i2) = k))).countP
        (fun r => !(isNullV (getVal r "match_type")))))
    (Value.str (jsonList ((((L.map Prod.snd).flatten.filter (fun r =>
        !(isNullV (getVal r i1)) && !(isNullV (getVal r i2)))).filter
      (fun r => decide ((getVal r i1, getVal r i2) = k))).map
        (fun r => getVal r "match_type"))))
    hne hc1 ht1 hc2 ht2
  have hgrp : (((L.map Prod.snd).flatten.filter (fun r =>
        !(isNullV (getVal r i1)) && !(isNullV (getVal r i2)))).filter
      (fun r => decide ((getVal r i1, getVal r i2) = k))) =
      (L.map (fun p => p.2.filter
        (fun r => decide ((getVal r i1, getVal r i2) = k)))).flatten := by
    rw [List.filter_filter]
    rw [List.filter_congr (q := fun r => decide ((getVal r i1, getVal r i2) = k)) ?_]
    · rw [List.filter_flatten, List.map_map]
      rfl
    · intro r _
      by_cases hkr : (getVal r i1, getVal r i2) = k
      · have e1 : getVal r i1 = k.1 := by rw [← hkr]
        have e2 : getVal r i2 = k.2 := by rw [← hkr]
        simp [hkr, e1, e2, hk1n, hk2n]
      · simp [hkr]
  have hB : ∀ p ∈ L, (p.2.filter (fun r => decide ((getVal r i1, getVal r i2) = k))) = [] ∨
      ∃ r, (p.2.filter (fun r => decide ((getVal r i1, getVal r i2) = k))) = [r] ∧
        (fun r => getVal r "match_type") r = Value.str (S p.1) := by
    intro p hp
    rcases hBp : p.2.filter (fun r => decide ((getVal r i1, getVal r i2) = k)) with _ | ⟨r, rest⟩
    · exact Or.inl rfl
    · cases rest with
      | nil =>
        refine Or.inr ⟨r, rfl, ?_⟩
        have hrmem : r ∈ p.2.filter (fun r => decide ((getVal r i1, getVal r i2) = k)) := by
          rw [hBp]
          exact List.mem_cons_self _ _
        exact hconst p hp r (List.mem_of_mem_filter hrmem)
      | cons r2 rest2 =>
        have hlen := honce p hp k
        rw [hBp] at hlen
        simp at hlen
  have htype : ((((L.map Prod.snd).flatten.filter (fun r =>
        !(isNullV (getVal r i1)) && !(isNullV (getVal r i2)))).filter
      (fun r => decide ((getVal r i1, getVal r i2) = k))).map
        (fun r => getVal r "match_type")) =
      matchedFeats L i1 i2 k := by
    rw [hgrp, List.map_flatten, List.map_map]
    exact flatten_singleton_blocks (fun r => getVal r "match_type") L
      (fun p => p.2.filter (fun r => decide ((getVal r i1, getVal r i2) = k))) hB
  have hallnn : ∀ r ∈ (((L.map Prod.snd).flatten.filter (fun r =>
        !(isNullV (getVal r i1)) && !(isNullV (getVal r i2)))).filter
      (fun r => decide ((getVal r i1, getVal r i2) = k))),
      (!(isNullV (getVal r "match_type"))) = true := by
    intro r hr
    have hr2 := List.mem_of_mem_filter hr
    have hr3 := List.mem_of_mem_filter hr2
    rcases List.mem_flatten.mp hr3 with ⟨b, hb, hrb⟩
    rcases List.mem_map.mp hb with ⟨p, hp, rfl⟩
    rw [hconst p hp r hrb]
    rfl
  have hcnt : ((((L.map Prod.snd).flatten.filter (fun r =>
        !(isNullV (getVal r i1)) && !(isNullV (getVal r i2)))).filter
      (fun r => decide ((getVal r i1, getVal r i2) = k))).countP
        (fun r => !(isNullV (getVal r "match_type")))) =
      (matchedFeats L i1 i2 k).length := by
    rw [List.countP_eq_length.mpr hallnn, ← htype, List.length_map]
  refine ⟨?_, ?_⟩
  · rw [hgv.1, hgv.2.1, hgv.2.2.1, Prod.mk.eta, hcnt]
  · rw [hgv.1, hgv.2.1, hgv.2.2.2, Prod.mk.eta, htype]

/-- C4 witness: the aggregator theorem applied to two one-row feature
tables, domain then address, sharing the pair key: the label lists domain
before address and the count is two. -/
theorem c4_match_type_in_run_order_witness :
    getVal [("id_l", Value.str (S "1")), ("id_r", Value.str (S "a")),
        ("match_count", Value.nat 2),
        ("match_type", Value.str (S "[\x22domain\x22, \x22address\x22]"))] "match_count" =
      Value.nat (matchedFeats
        [("domain", [[("id_l", Value.str (S "1")), ("id_r", Value.str (S "a")),
           ("match_type", Value.str (S "domain"))]]),
         ("address", [[("id_l", Value.str (S "1")), ("id_r", Value.str (S "a")),
           ("match_type", Value.str (S "address"))]])] "id_l" "id_r"
        (Value.str (S "1"), Value.str (S "a"))).length := by
  have h := c4_match_type_in_run_order
    [("domain", [[("id_l", Value.str (S "1")), ("id_r", Value.str (S "a")),
       ("match_type", Value.str (S "domain"))]]),
     ("address", [[("id_l", Value.str (S "1")), ("id_r", Value.str (S "a")),
       ("match_type", Value.str (S "address"))]])] "id_l" "id_r"
    (by decide) (by decide) (by decide) (by decide) (by decide)
    (by decide)
    (by
      intro p hp k
      fin_cases hp <;> exact List.length_filter_le _ _)
    [("id_l", Value.str (S "1")), ("id_r", Value.str (S "a")),
     ("match_count", Value.nat 2),
     ("match_type", Value.str (S "[\x22domain\x22, \x22address\x22]"))]
    (by decide)
  have h1 := h.1
  rw [show getVal [("id_l", Value.str (S "1")), ("id_r", Value.str (S "a")),
      ("match_count", Value.nat 2),
      ("match_type", Value.str (S "[\x22domain\x22, \x22address\x22]"))] "id_l" =
      Value.str (S "1") from by decide,
    show getVal [("id_l", Value.str (S "1")), ("id_r", Value.str (S "a")),
      ("match_count", Value.nat 2),
      ("match_type", Value.str (S "[\x22domain\x22, \x22address\x22]"))] "id_r" =
      Value.str (S "a") from by decide] at h1
  exact h1

theorem updateAt_nil (i : Nat) (f : β → β) : updateAt i f ([] : List β) = [] := by
  cases i <;> rfl

theorem removeAt_nil (i : Nat) : removeAt i ([] : List β) = [] := by
  cases i <;> rfl

theorem findGroupIdx_none [DecidableEq α] :
    ∀ (G : List (List α)) (a : α), findGroupIdx G a = none ↔ ∀ g ∈ G, a ∉ g
  | [], a => by simp [findGroupIdx]
  | g :: gs, a => by
    rw [show findGroupIdx (g :: gs) a =
        (if g.contains a then some 0 else (findGroupIdx gs a).map (fun i => i + 1)) from rfl]
    by_cases h : g.contains a = true
    · rw [if_pos h]
      constructor
      · intro hx
        exact absurd hx (by simp)
      · intro hall
        exact ((hall g (List.mem_cons_self _ _)) (List.mem_of_elem_eq_true h)).elim
    · rw [if_neg h]
      have hng : a ∉ g := fun hm => h (List.elem_eq_true_of_mem hm)
      constructor
      · intro hx g' hg'
        rcases List.mem_cons.mp hg' with rfl | hg2
        · exact hng
        · have hn : findGroupIdx gs a = none := by
            cases hf : findGroupIdx gs a with
            | none => rfl
            | some i =>
              rw [hf] at hx
              simp at hx
          exact (findGroupIdx_none gs a).mp hn g' hg2
      · intro hall
        rw [(findGroupIdx_none gs a).mpr (fun g' hg' => hall g' (List.mem_cons_of_mem _ hg'))]
        rfl

theorem findGroupIdx_some [DecidableEq α] :
    ∀ (G : List (List α)) (a : α) (i : Nat), findGroupIdx G a = some i →
      ∃ g, G[i]? = some g ∧ a ∈ g
  | [], a, i => by simp [findGroupIdx]
  | g :: gs, a, i => by
    rw [show findGroupIdx (g :: gs) a =
        (if g.contains a then some 0 else (findGroupIdx gs a).map (fun i => i + 1)) from rfl]
    by_cases h : g.contains a = true
    · rw [if_pos h]
      intro hi
      have hi0 : i = 0 := by
        cases hi
        rfl
      subst hi0
      exact ⟨g, List.getElem?_cons_zero, List.mem_of_elem_eq_true h⟩
    · rw [if_neg h]
      intro hi
      cases hf : findGroupIdx gs a with
      | none =>
        rw [hf] at hi
        simp at hi
      | some j =>
        rw [hf] at hi
        simp only [Option.map_some'] at hi
        obtain ⟨g', hg', hag⟩ := findGroupIdx_some gs a j hf
        cases hi
        exact ⟨g', by simpa using hg', hag⟩

theorem updateAt_getElem_self (f : β → β) :
    ∀ (L : List β) (i : Nat) (g : β), L[i]? = some g → (updateAt i f L)[i]? = some (f g)
  | [], i, g => by simp
  | b :: bs, 0, g => by
    intro h
    rw [List.getElem?_cons_zero] at h
    cases h
    rw [show updateAt 0 f (b :: bs) = f b :: bs from rfl, List.getElem?_cons_zero]
  | b :: bs, i+1, g => by
    intro h
    rw [List.getElem?_cons_succ] at h
    rw [show updateAt (i+1) f (b :: bs) = b :: updateAt i f bs from rfl,
      List.getElem?_cons_succ]
    exact updateAt_getElem_self f bs i g h

theorem updateAt_getElem_ne (f : β → β) :
    ∀ (L : List β) (i j : Nat), i ≠ j → (updateAt i f L)[j]? = L[j]?
  | [], i, j, _ => by rw [updateAt_nil]
  | b :: bs, 0, 0, h => absurd rfl h
  | b :: bs, 0, j+1, _ => by
    rw [show updateAt 0 f (b :: bs) = f b :: bs from rfl,
      List.getElem?_cons_succ, List.getElem?_cons_succ]
  | b :: bs, i+1, 0, _ => by
    rw [show updateAt (i+1) f (b :: bs) = b :: updateAt i f bs from rfl,
      List.getElem?_cons_zero, List.getElem?_cons_zero]
  | b :: bs, i+1, j+1, h => by
    rw [show updateAt (i+1) f (b :: bs) = b :: updateAt i f bs from rfl,
      List.getElem?_cons_succ, List.getElem?_cons_succ]
    exact updateAt_getElem_ne f bs i j (fun he => h (by rw [he]))

theorem mem_updateAt_cases (f : β → β) :
    ∀ (L : List β) (i : Nat) (g' : β), g' ∈ updateAt i f L →
      g' ∈ L ∨ ∃ g, L[i]? = some g ∧ g' = f g
  | [], i, g' => by
    intro h
    rw [updateAt_nil] at h
    exact Or.inl h
  | b :: bs, 0, g' => by
    intro h
    rw [show updateAt 0 f (b :: bs) = f b :: bs from rfl] at h
    rcases List.mem_cons.mp h with he | h2
    · exact Or.inr ⟨b, List.getElem?_cons_zero, he⟩
    · exact Or.inl (List.mem_cons_of_mem _ h2)
  | b :: bs, i+1, g' => by
    intro h
    rw [show updateAt (i+1) f (b :: bs) = b :: updateAt i f bs from rfl] at h
    rcases List.mem_cons.mp h with rfl | h2
    · exact Or.inl (List.mem_cons_self _ _)
    · rcases mem_updateAt_cases f bs i g' h2 with h3 | ⟨g, hg, he⟩
      · exact Or.inl (List.mem_cons_of_mem _ h3)
      · exact Or.inr ⟨g, by simpa using hg, he⟩

theorem removeAt_sublist : ∀ (L : List β) (j : Nat), (removeAt j L).Sublist L
  | [], j => by
    rw [removeAt_nil]
  | b :: bs, 0 => by
    rw [show removeAt 0 (b :: bs) = bs from rfl]
    exact List.sublist_cons_self b bs
  | b :: bs, j+1 => by
    rw [show removeAt (j+1) (b :: bs) = b :: removeAt j bs from rfl]
    exact List.Sublist.cons₂ b (removeAt_sublist bs j)

theorem getElem_mem_removeAt :
    ∀ (L : List β) (i j : Nat) (x : β), i ≠ j → L[i]? = some x → x ∈ removeAt j L
  | [], i, j, x, _, h => by simp at h
  | b :: bs, 0, 0, x, h, _ => absurd rfl h
  | b :: bs, 0, j+1, x, _, h => by
    rw [List.getElem?_cons_zero] at h
    cases h
    rw [show removeAt (j+1) (b :: bs) = b :: removeAt j bs from rfl]
    exact List.mem_cons_self _ _
  | b :: bs, i+1, 0, x, _, h => by
    rw [List.getElem?_cons_succ] at h
    rw [show removeAt 0 (b :: bs) = bs from rfl]
    exact List.getElem?_mem h
  | b :: bs, i+1, j+1, x, h, hg => by
    rw [List.getElem?_cons_succ] at hg
    rw [show removeAt (j+1) (b :: bs) = b :: removeAt j bs from rfl]
    exact List.mem_cons_of_mem _
      (getElem_mem_removeAt bs i j x (fun he => h (by rw [he])) hg)

theorem mem_removeAt_or :
    ∀ (L : List β) (j : Nat) (g : β), g ∈ L → g ∈ removeAt j L ∨ L[j]? = some g
  | [], j, g, h => by simp at h
  | b :: bs, 0, g, h => by
    rcases List.mem_cons.mp h with rfl | h2
    · exact Or.inr List.getElem?_cons_zero
    · rw [show removeAt 0 (b :: bs) = bs from rfl]
      exact Or.inl h2
  | b :: bs, j+1, g, h => by
    rw [show removeAt (j+1) (b :: bs) = b :: removeAt j bs from rfl]
    rcases List.mem_cons.mp h with rfl | h2
    · exact Or.inl (List.mem_cons_self _ _)
    · rcases mem_removeAt_or bs j g h2 with h3 | h3
      · exact Or.inl (List.mem_cons_of_mem _ h3)
      · exact Or.inr (by simpa using h3)

theorem updateAt_covers (e : List α) :
    ∀ (L : List (List α)) (i : Nat), ∀ g ∈ L,
      ∃ g', g' ∈ updateAt i (fun h => h ++ e) L ∧ g ⊆ g'
  | [], _, g, hg => by simp at hg
  | b :: bs, 0, g, hg => by
    rw [show updateAt 0 (fun h => h ++ e) (b :: bs) = (b ++ e) :: bs from rfl]
    rcases List.mem_cons.mp hg with rfl | h2
    · exact ⟨g ++ e, List.mem_cons_self _ _, List.subset_append_left _ _⟩
    · exact ⟨g, List.mem_cons_of_mem _ h2, List.Subset.refl _⟩
  | b :: bs, i+1, g, hg => by
    rw [show updateAt (i+1) (fun h => h ++ e) (b :: bs) =
        b :: updateAt i (fun h => h ++ e) bs from rfl]
    rcases List.mem_cons.mp hg with rfl | h2
    · exact ⟨g, List.mem_cons_self _ _, List.Subset.refl _⟩
    · obtain ⟨g', h3, h4⟩ := updateAt_covers e bs i g h2
      exact ⟨g', List.mem_cons_of_mem _ h3, h4⟩

theorem addPair_covers [DecidableEq α] (G : List (List α)) (a b : α) :
    ∀ g ∈ G, ∃ g', g' ∈ addPair G a b ∧ g ⊆ g' := by
  intro g hg
  cases hfa : findGroupIdx G a with
  | none =>
    cases hfb : findGroupIdx G b with
    | none =>
      simp only [addPair, hfa, hfb]
      exact ⟨g, List.mem_append_left _ hg, List.Subset.refl _⟩
    | some j =>
      simp only [addPair, hfa, hfb]
      exact updateAt_covers [a] G j g hg
  | some i =>
    cases hfb : findGroupIdx G b with
    | none =>
      simp only [addPair, hfa, hfb]
      exact updateAt_covers [b] G i g hg
    | some j =>
      by_cases hij : i = j
      · simp only [addPair, hfa, hfb, if_pos hij]
        exact ⟨g, hg, List.Subset.refl _⟩
      · simp only [addPair, hfa, hfb, if_neg hij]
        obtain ⟨gi, hgi, hai⟩ := findGroupIdx_some G a i hfa
        obtain ⟨gj, hgj, hbj⟩ := findGroupIdx_some G b j hfb
        obtain ⟨g', hg', hsub⟩ := updateAt_covers (G.getD j []) G i g hg
        rcases mem_removeAt_or _ j g' hg' with hin | hjx
        · exact ⟨g', hin, hsub⟩
        · rw [updateAt_getElem_ne _ G i j hij, hgj] at hjx
          have hgj' : g' = gj := by cases hjx; rfl
          have hmi : (updateAt i (fun h => h ++ G.getD j []) G)[i]? =
              some (gi ++ G.getD j []) := updateAt_getElem_self _ G i gi hgi
          refine ⟨gi ++ G.getD j [], getElem_mem_removeAt _ i j _ hij hmi, ?_⟩
          intro x hx
          apply List.mem_append_right
          rw [List.getD_eq_getElem?_getD, hgj]
          exact hgj' ▸ hsub hx

theorem sameGroup_mono [DecidableEq α] (G : List (List α)) (a b x y : α)
    (h : sameGroup G x y) : sameGroup (addPair G a b) x y := by
  obtain ⟨g, hg, hx, hy⟩ := h
  obtain ⟨g', hg', hsub⟩ := addPair_covers G a b g hg
  exact ⟨g', hg', hsub hx, hsub hy⟩

theorem addPair_joins [DecidableEq α] (G : List (List α)) (a b : α) :
    sameGroup (addPair G a b) a b := by
  cases hfa : findGroupIdx G a with
  | none =>
    cases hfb : findGroupIdx G b with
    | none =>
      simp only [addPair, hfa, hfb]
      refine ⟨[a, b], List.mem_append_right _ (List.mem_cons_self _ _), ?_, ?_⟩
      · exact List.mem_cons_self _ _
      · exact List.mem_cons_of_mem _ (List.mem_cons_self _ _)
    | some j =>
      simp only [addPair, hfa, hfb]
      obtain ⟨gj, hgj, hbj⟩ := findGroupIdx_some G b j hfb
      have hup := updateAt_getElem_self (fun h => h ++ [a]) G j gj hgj
      exact ⟨gj ++ [a], List.getElem?_mem hup,
        List.mem_append_right _ (List.mem_cons_self _ _), List.mem_append_left _ hbj⟩
  | some i =>
    cases hfb : findGroupIdx G b with
    | none =>
      simp only [addPair, hfa, hfb]
      obtain ⟨gi, hgi, hai⟩ := findGroupIdx_some G a i hfa
      have hup := updateAt_getElem_self (fun h => h ++ [b]) G i gi hgi
      exact ⟨gi ++ [b], List.getElem?_mem hup, List.mem_append_left _ hai,
        List.mem_append_right _ (List.mem_cons_self _ _)⟩
    | some j =>
      by_cases hij : i = j
      · simp only [addPair, hfa, hfb, if_pos hij]
        obtain ⟨gi, hgi, hai⟩ := findGroupIdx_some G a i hfa
        obtain ⟨gj, hgj, hbj⟩ := findGroupIdx_some G b j hfb
        subst hij
        rw [hgi] at hgj
        have he : gj = gi := by cases hgj; rfl
        subst he
        exact ⟨gj, List.getElem?_mem hgi, hai, hbj⟩
      · simp only [addPair, hfa, hfb, if_neg hij]
        obtain ⟨gi, hgi, hai⟩ := findGroupIdx_some G a i hfa
        obtain ⟨gj, hgj, hbj⟩ := findGroupIdx_some G b j hfb
        have hmi : (updateAt i (fun h => h ++ G.getD j []) G)[i]? =
            some (gi ++ G.getD j []) := updateAt_getElem_self _ G i gi hgi
        refine ⟨gi ++ G.getD j [], getElem_mem_removeAt _ i j _ hij hmi,
          List.mem_append_left _ hai, ?_⟩
        apply List.mem_append_right
        rw [List.getD_eq_getElem?_getD, hgj]
        exact hbj

theorem disjoint_updateAt_fresh [DecidableEq α] :
    ∀ (G : List (List α)) (i : Nat) (e : List α),
      GroupsDisjoint G → (∀ x ∈ e, ∀ g ∈ G, x ∉ g) →
      GroupsDisjoint (updateAt i (fun g => g ++ e) G)
  | [], i, e, _, _ => by
    rw [updateAt_nil]
    exact List.Pairwise.nil
  | b :: bs, 0, e, hd, he => by
    rw [show updateAt 0 (fun g => g ++ e) (b :: bs) = (b ++ e) :: bs from rfl]
    rcases List.pairwise_cons.mp hd with ⟨hb, hbs⟩
    refine List.pairwise_cons.mpr ⟨?_, hbs⟩
    intro g' hg' x hx
    rcases List.mem_append.mp hx with hxb | hxe
    · exact hb g' hg' x hxb
    · exact he x hxe g' (List.mem_cons_of_mem _ hg')
  | b :: bs, i+1, e, hd, he => by
    rw [show updateAt (i+1) (fun g => g ++ e) (b :: bs) =
        b :: updateAt i (fun g => g ++ e) bs from rfl]
    rcases List.pairwise_cons.mp hd with ⟨hb, hbs⟩
    refine List.pairwise_cons.mpr ⟨?_, disjoint_updateAt_fresh bs i e hbs
      (fun x hx g hg => he x hx g (List.mem_cons_of_mem _ hg))⟩
    intro g' hg' x hx
    rcases mem_updateAt_cases _ bs i g' hg' with h1 | ⟨g0, hg0, rfl⟩
    · exact hb g' h1 x hx
    · intro hxg'
      rcases List.mem_append.mp hxg' with h2 | h2
      · exact hb g0 (List.getElem?_mem hg0) x hx h2
      · exact he x h2 b (List.mem_cons_self _ _) hx

theorem removeAt_disj [DecidableEq α] :
    ∀ (L : List (List α)) (k : Nat) (gk : List α), GroupsDisjoint L →
      L[k]? = some gk → ∀ g' ∈ removeAt k L, ∀ x, x ∈ gk → x ∉ g'
  | [], k, gk, _, hk => by simp at hk
  | b :: bs, 0, gk, hd, hk => by
    rw [List.getElem?_cons_zero] at hk
    cases hk
    rw [show removeAt 0 (b :: bs) = bs from rfl]
    rcases List.pairwise_cons.mp hd with ⟨hb, _⟩
    exact fun g' hg' x hx => hb g' hg' x hx
  | b :: bs, k+1, gk, hd, hk => by
    rw [List.getElem?_cons_succ] at hk
    rw [show removeAt (k+1) (b :: bs) = b :: removeAt k bs from rfl]
    rcases List.pairwise_cons.mp hd with ⟨hb, hbs⟩
    intro g' hg' x hx
    rcases List.mem_cons.mp hg' with rfl | hg2
    · exact fun hxb => hb gk (List.getElem?_mem hk) x hxb hx
    · exact removeAt_disj bs k gk hbs hk g' hg2 x hx

theorem disjoint_merge [DecidableEq α] :
    ∀ (G : List (List α)) (i j : Nat) (gj : List α),
      GroupsDisjoint G → i ≠ j → G[j]? = some gj →
      GroupsDisjoint (removeAt j (updateAt i (fun g => g ++ gj) G))
  | [], i, j, gj, _, _, hj => by simp at hj
  | b :: bs, 0, 0, gj, _, hij, _ => absurd rfl hij
  | b :: bs, 0, j+1, gj, hd, _, hj => by
    rw [List.getElem?_cons_succ] at hj
    rw [show updateAt 0 (fun g => g ++ gj) (b :: bs) = (b ++ gj) :: bs from rfl,
      show removeAt (j+1) ((b ++ gj) :: bs) = (b ++ gj) :: removeAt j bs from rfl]
    rcases List.pairwise_cons.mp hd with ⟨hb, hbs⟩
    refine List.pairwise_cons.mpr ⟨?_, List.Pairwise.sublist (removeAt_sublist bs j) hbs⟩
    intro g' hg' x hx
    rcases List.mem_append.mp hx with hxb | hxj
    · exact hb g' ((removeAt_sublist bs j).subset hg') x hxb
    · exact removeAt_disj bs j gj hbs hj g' hg' x hxj
  | b :: bs, i+1, 0, gj, hd, _, hj => by
    rw [List.getElem?_cons_zero] at hj
    cases hj
    rw [show updateAt (i+1) (fun g => g ++ b) (b :: bs) =
        b :: updateAt i (fun g => g ++ b) bs from rfl,
      show removeAt 0 (b :: updateAt i (fun g => g ++ b) bs) =
        updateAt i (fun g => g ++ b) bs from rfl]
    rcases List.pairwise_cons.mp hd with ⟨hb, hbs⟩
    exact disjoint_updateAt_fresh bs i b hbs (fun x hx g hg hxg => hb g hg x hx hxg)
  | b :: bs, i+1, j+1, gj, hd, hij, hj => by
    rw [List.getElem?_cons_succ] at hj
    rw [show updateAt (i+1) (fun g => g ++ gj) (b :: bs) =
        b :: updateAt i (fun g => g ++ gj) bs from rfl,
      show removeAt (j+1) (b :: updateAt i (fun g => g ++ gj) bs) =
        b :: removeAt j (updateAt i (fun g => g ++ gj) bs) from rfl]
    rcases List.pairwise_cons.mp hd with ⟨hb, hbs⟩
    refine List.pairwise_cons.mpr
      ⟨?_, disjoint_merge bs i j gj hbs (fun he => hij (by rw [he])) hj⟩
    intro g' hg' x hx
    have hg2 := (removeAt_sublist _ j).subset hg'
    rcases mem_updateAt_cases _ bs i g' hg2 with h1 | ⟨g0, hg0, rfl⟩
    · exact hb g' h1 x hx
    · intro hxg'
      rcases List.mem_append.mp hxg' with h2 | h2
      · exact hb g0 (List.getElem?_mem hg0) x hx h2
      · exact hb gj (List.getElem?_mem hj) x hx h2

theorem addPair_disjoint [DecidableEq α] (G : List (List α)) (a b : α)
    (hd : GroupsDisjoint G) : GroupsDisjoint (addPair G a b) := by
  cases hfa : findGroupIdx G a with
  | none =>
    cases hfb : findGroupIdx G b with
    | none =>
      simp only [addPair, hfa, hfb]
      rw [GroupsDisjoint, List.pairwise_append]
      refine ⟨hd, by simp [List.Pairwise], ?_⟩
      intro g hg g2 hg2 x hx
      have hg2e : g2 = [a, b] := by simpa using hg2
      subst hg2e
      intro hxab
      rcases List.mem_cons.mp hxab with rfl | hxb
      · exact ((findGroupIdx_none G x).mp hfa g hg) hx
      · have hxb2 : x = b := by simpa using hxb
        subst hxb2
        exact ((findGroupIdx_none G x).mp hfb g hg) hx
    | some j =>
      simp only [addPair, hfa, hfb]
      exact disjoint_updateAt_fresh G j [a] hd
        (fun x hx g hg => by
          have hxa : x = a := by simpa using hx
          subst hxa
          exact (findGroupIdx_none G x).mp hfa g hg)
  | some i =>
    cases hfb : findGroupIdx G b with
    | none =>
      simp only [addPair, hfa, hfb]
      exact disjoint_updateAt_fresh G i [b] hd
        (fun x hx g hg => by
          have hxb : x = b := by simpa using hx
          subst hxb
          exact (findGroupIdx_none G x).mp hfb g hg)
    | some j =>
      by_cases hij : i = j
      · simp only [addPair, hfa, hfb, if_pos hij]
        exact hd
      · simp only [addPair, hfa, hfb, if_neg hij]
        obtain ⟨gj, hgj, _⟩ := findGroupIdx_some G b j hfb
        have hgd : G.getD j [] = gj := by
          rw [List.getD_eq_getElem?_getD, hgj]
          rfl
        rw [hgd]
        exact disjoint_merge G i j gj hd hij hgj

theorem mem_unique_group [DecidableEq α] :
    ∀ (G : List (List α)), GroupsDisjoint G → ∀ g1 g2, g1 ∈ G → g2 ∈ G →
      ∀ y, y ∈ g1 → y ∈ g2 → g1 = g2
  | [], _, g1, g2, h1, _, _, _, _ => absurd h1 (by simp)
  | b :: bs, hd, g1, g2, h1, h2, y, hy1, hy2 => by
    rcases List.pairwise_cons.mp hd with ⟨hb, hbs⟩
    rcases List.mem_cons.mp h1 with rfl | h1b
    · rcases List.mem_cons.mp h2 with rfl | h2b
      · rfl
      · exact absurd hy2 (hb g2 h2b y hy1)
    · rcases List.mem_cons.mp h2 with rfl | h2b
      · exact absurd hy1 (hb g1 h1b y hy2)
      · exact mem_unique_group bs hbs g1 g2 h1b h2b y hy1 hy2

theorem sameGroup_trans [DecidableEq α] (G : List (List α))
    (hd : GroupsDisjoint G) (x y z : α)
    (h1 : sameGroup G x y) (h2 : sameGroup G y z) : sameGroup G x z := by
  obtain ⟨g1, hg1, hx, hy1⟩ := h1
  obtain ⟨g2, hg2, hy2, hz⟩ := h2
  have he := mem_unique_group G hd g1 g2 hg1 hg2 y hy1 hy2
  subst he
  exact ⟨g1, hg1, hx, hz⟩

theorem findGroupIdx_eq_of_sameGroup [DecidableEq α] :
    ∀ (G : List (List α)), GroupsDisjoint G → ∀ x y, sameGroup G x y →
      findGroupIdx G x = findGroupIdx G y ∧ (findGroupIdx G x).isSome = true
  | [], _, x, y, h => by
    obtain ⟨g, hg, _, _⟩ := h
    simp at hg
  | b :: bs, hd, x, y, h => by
    obtain ⟨g, hg, hx, hy⟩ := h
    rcases List.pairwise_cons.mp hd with ⟨hb, hbs⟩
    rw [show findGroupIdx (b :: bs) x =
        (if b.contains x then some 0 else (findGroupIdx bs x).map (fun i => i + 1)) from rfl,
      show findGroupIdx (b :: bs) y =
        (if b.contains y then some 0 else (findGroupIdx bs y).map (fun i => i + 1)) from rfl]
    rcases List.mem_cons.mp hg with rfl | hgbs
    · rw [if_pos (List.elem_eq_true_of_mem hx), if_pos (List.elem_eq_true_of_mem hy)]
      exact ⟨rfl, rfl⟩
    · have hxb : x ∉ b := fun hxb => hb g hgbs x hxb hx
      have hyb : y ∉ b := fun hyb => hb g hgbs y hyb hy
      rw [if_neg (fun hc => hxb (List.mem_of_elem_eq_true hc)),
        if_neg (fun hc => hyb (List.mem_of_elem_eq_true hc))]
      obtain ⟨heq, hsome⟩ := findGroupIdx_eq_of_sameGroup bs hbs x y ⟨g, hgbs, hx, hy⟩
      constructor
      · rw [heq]
      · cases hf : findGroupIdx bs x with
        | none =>
          rw [hf] at hsome
          simp at hsome
        | some i => rfl

theorem foldl_addPair_mono [DecidableEq α] :
    ∀ (P : List (α × α)) (G : List (List α)) (x y : α),
      sameGroup G x y →
      sameGroup (P.foldl (fun g p => addPair g p.1 p.2) G) x y
  | [], _, _, _, h => h
  | p :: ps, G, x, y, h =>
    foldl_addPair_mono ps _ x y (sameGroup_mono _ _ _ x y h)

theorem foldl_addPair_disjoint [DecidableEq α] :
    ∀ (P : List (α × α)) (G : List (List α)), GroupsDisjoint G →
      GroupsDisjoint (P.foldl (fun g p => addPair g p.1 p.2) G)
  | [], _, h => h
  | p :: ps, G, h => foldl_addPair_disjoint ps _ (addPair_disjoint G p.1 p.2 h)

theorem foldl_addPair_pairs [DecidableEq α] :
    ∀ (P : List (α × α)) (G : List (List α)) (a b : α), (a, b) ∈ P →
      sameGroup (P.foldl (fun g p => addPair g p.1 p.2) G) a b
  | [], _, _, _, h => absurd h (by simp)
  | p :: ps, G, a, b, h => by
    rcases List.mem_cons.mp h with he | h2
    · rw [show (p :: ps).foldl (fun g p => addPair g p.1 p.2) G =
          ps.foldl (fun g p => addPair g p.1 p.2) (addPair G p.1 p.2) from rfl]
      have hj : sameGroup (addPair G p.1 p.2) a b := by
        rw [← he]
        exact addPair_joins G a b
      exact foldl_addPair_mono ps _ a b hj
    · exact foldl_addPair_pairs ps _ a b h2

/-- C1: group membership in dedupe mode is the transitive closure of the
retained-pair relation.  Modelled from the spec (sections 4.6, 4.7 and 9),
since no dedupe or match_group code exists under src: processing the
retained pairs through the disjoint-set structure, any two records
connected through a shared middle record receive the same (defined)
match_group id even though their own pair was never computed, and whenever
a processed pair connects two records lying in existing, different groups,
those groups are merged: every member of either group shares one group
afterwards. -/
theorem c1_transitive_grouping :
    (∀ (pairs : List (String × String)) (a b c : String),
        (a, b) ∈ pairs → (b, c) ∈ pairs →
        (match_group pairs a).isSome = true ∧
        match_group pairs a = match_group pairs b ∧
        match_group pairs b = match_group pairs c) ∧
    (∀ (G : List (List String)) (x y a b : String), GroupsDisjoint G →
        sameGroup G x a → sameGroup G y b → sameGroup (addPair G a b) x y) := by
  constructor
  · intro pairs a b c hab hbc
    have hd : GroupsDisjoint (buildGroups pairs) :=
      foldl_addPair_disjoint pairs [] List.Pairwise.nil
    have h1 : sameGroup (buildGroups pairs) a b := foldl_addPair_pairs pairs [] a b hab
    have h2 : sameGroup (buildGroups pairs) b c := foldl_addPair_pairs pairs [] b c hbc
    obtain ⟨he1, hs1⟩ := findGroupIdx_eq_of_sameGroup (buildGroups pairs) hd a b h1
    obtain ⟨he2, _⟩ := findGroupIdx_eq_of_sameGroup (buildGroups pairs) hd b c h2
    exact ⟨hs1, he1, he2⟩
  · intro G x y a b hd hxa hyb
    have hxa' := sameGroup_mono G a b x a hxa
    have hyb' := sameGroup_mono G a b y b hyb
    have hab := addPair_joins G a b
    have hd' := addPair_disjoint G a b hd
    have hxb := sameGroup_trans _ hd' x a b hxa' hab
    have hby : sameGroup (addPair G a b) b y := by
      obtain ⟨g, hg, h1, h2⟩ := hyb'
      exact ⟨g, hg, h2, h1⟩
    exact sameGroup_trans _ hd' x b y hxb hby

/-- C1 witness: the chain A-B, B-C groups all three records together with
one defined match_group id, although the pair (A, C) was never
processed. -/
theorem c1_transitive_grouping_witness :
    (match_group [("A", "B"), ("B", "C")] "A").isSome = true ∧
    match_group [("A", "B"), ("B", "C")] "A" = match_group [("A", "B"), ("B", "C")] "B" ∧
    match_group [("A", "B"), ("B", "C")] "B" = match_group [("A", "B"), ("B", "C")] "C" :=
  c1_transitive_grouping.1 [("A", "B"), ("B", "C")] "A" "B" "C" (by decide) (by decide)

theorem hGet_alloc_lt (h : Heap) (d : DF) (r : Nat) (hr : r < h.length) :
    hGet (hAlloc h d).1 r = hGet h r := by
  unfold hAlloc hGet
  rw [List.getD_eq_getElem?_getD, List.getD_eq_getElem?_getD, List.getElem?_append_left hr]

theorem hGet_alloc_self (h : Heap) (d : DF) :
    hGet (hAlloc h d).1 (hAlloc h d).2 = d := by
  unfold hAlloc hGet
  rw [List.getD_eq_getElem?_getD, List.getElem?_concat_length]
  rfl

theorem hAlloc_length (h : Heap) (d : DF) : (hAlloc h d).1.length = h.length + 1 := by
  simp [hAlloc]

theorem hGet_set_ne (h : Heap) (t : Nat) (d : DF) (r : Nat) (hr : r ≠ t) :
    hGet (hSet h t d) r = hGet h r := by
  unfold hSet hGet
  rw [List.getD_eq_getElem?_getD, List.getD_eq_getElem?_getD, List.getElem?_set,
    if_neg (fun he => hr he.symm)]

theorem hSet_length (h : Heap) (t : Nat) (d : DF) : (hSet h t d).length = h.length := by
  simp [hSet]

theorem featureBodyH_preserves (ext : PhoneExt) (st : MState) (f1 f2 : FrameH)
    (feature var : String) (h : Heap) (r1 r2 r : Nat)
    (hr : r < h.length) (h1 : r ≠ r1) (h2 : r ≠ r2) :
    hGet (Matcher.featureBodyH ext st f1 f2 feature var h r1 r2).1 r = hGet h r := by
  unfold Matcher.featureBodyH
  by_cases he : (feature = "entity_name" || feature = "address") = true
  · rw [if_pos he]
    rw [hGet_set_ne _ _ _ _ h2, hGet_set_ne _ _ _ _ h1]
  · rw [if_neg he]
    by_cases hdm : feature = "domain"
    · rw [if_pos hdm]
      cases f1.domain with
      | none => cases f2.domain <;> rfl
      | some c1 =>
        cases f2.domain with
        | none => rfl
        | some c2 =>
          simp only []
          by_cases hex : st.exact_domain = true
          · rw [if_pos hex]
            rw [hGet_alloc_lt, hGet_alloc_lt, hGet_set_ne _ _ _ _ h2,
              hGet_set_ne _ _ _ _ h1]
            · rw [hSet_length, hSet_length]
              exact hr
            · rw [hAlloc_length, hSet_length, hSet_length]
              omega
          · rw [if_neg hex]
            rw [hGet_alloc_lt, hGet_alloc_lt, hGet_set_ne _ _ _ _ h2,
              hGet_set_ne _ _ _ _ h1]
            · rw [hSet_length, hSet_length]
              exact hr
            · rw [hAlloc_length, hSet_length, hSet_length]
              omega
    · rw [if_neg hdm]
      by_cases hph : feature = "phone"
      · rw [if_pos hph]
        cases f1.phone with
        | none => cases f2.phone <;> cases f1.country <;> cases f2.country <;> rfl
        | some p1 =>
          cases f2.phone with
          | none => cases f1.country <;> cases f2.country <;> rfl
          | some p2 =>
            cases f1.country with
            | none => cases f2.country <;> rfl
            | some c1 =>
              cases f2.country with
              | none => rfl
              | some c2 =>
                simp only []
                rw [hGet_set_ne _ _ _ _ h2, hGet_set_ne _ _ _ _ h1]
      · rw [if_neg hph]

theorem featureBodyH_length_ge (ext : PhoneExt) (st : MState) (f1 f2 : FrameH)
    (feature var : String) (h : Heap) (r1 r2 : Nat) :
    h.length ≤ (Matcher.featureBodyH ext st f1 f2 feature var h r1 r2).1.length := by
  unfold Matcher.featureBodyH
  by_cases he : (feature = "entity_name" || feature = "address") = true
  · rw [if_pos he]
    rw [hSet_length, hSet_length]
  · rw [if_neg he]
    by_cases hdm : feature = "domain"
    · rw [if_pos hdm]
      cases f1.domain with
      | none => cases f2.domain <;> simp
      | some c1 =>
        cases f2.domain with
        | none => simp
        | some c2 =>
          simp only []
          by_cases hex : st.exact_domain = true
          · rw [if_pos hex, hAlloc_length, hAlloc_length, hSet_length, hSet_length]
            omega
          · rw [if_neg hex, hAlloc_length, hAlloc_length, hSet_length, hSet_length]
            omega
    · rw [if_neg hdm]
      by_cases hph : feature = "phone"
      · rw [if_pos hph]
        cases f1.phone with
        | none => cases f2.phone <;> cases f1.country <;> cases f2.country <;> simp
        | some p1 =>
          cases f2.phone with
          | none => cases f1.country <;> cases f2.country <;> simp
          | some p2 =>
            cases f1.country with
            | none => cases f2.country <;> simp
            | some c1 =>
              cases f2.country with
              | none => simp
              | some c2 =>
                simp only []
                rw [hSet_length, hSet_length]
      · rw [if_neg hph]

theorem mfPrep_refs (f1 f2 : FrameH) (c1 c2 var : String) (h : Heap) :
    (Matcher.mfPrep f1 f2 c1 c2 var h).2.1 = h.length ∧
    (Matcher.mfPrep f1 f2 c1 c2 var h).2.2 = h.length + 1 := by
  constructor
  · rfl
  · rw [show (Matcher.mfPrep f1 f2 c1 c2 var h).2.2 =
        (hAlloc h (hGet h f1.dataRef)).1.length from rfl, hAlloc_length]

theorem mfPrep_length (f1 f2 : FrameH) (c1 c2 var : String) (h : Heap) :
    (Matcher.mfPrep f1 f2 c1 c2 var h).1.length = h.length + 2 := by
  unfold Matcher.mfPrep
  simp only []
  rw [hSet_length, hSet_length, hSet_length, hSet_length, hAlloc_length, hAlloc_length]

theorem mfPrep_preserves (f1 f2 : FrameH) (c1 c2 var : String) (h : Heap)
    (r : Nat) (hr : r < h.length) :
    hGet (Matcher.mfPrep f1 f2 c1 c2 var h).1 r = hGet h r := by
  unfold Matcher.mfPrep
  simp only []
  have e1 : (hAlloc h (hGet h f1.dataRef)).2 = h.length := rfl
  have e2 : (hAlloc (hAlloc h (hGet h f1.dataRef)).1
      (hGet (hAlloc h (hGet h f1.dataRef)).1 f2.dataRef)).2 = h.length + 1 := by
    rw [show (hAlloc (hAlloc h (hGet h f1.dataRef)).1
      (hGet (hAlloc h (hGet h f1.dataRef)).1 f2.dataRef)).2 =
      (hAlloc h (hGet h f1.dataRef)).1.length from rfl, hAlloc_length]
  rw [hGet_set_ne _ _ _ _ (by rw [e2]; omega), hGet_set_ne _ _ _ _ (by rw [e1]; omega),
    hGet_set_ne _ _ _ _ (by rw [e2]; omega), hGet_set_ne _ _ _ _ (by rw [e1]; omega),
    hGet_alloc_lt _ _ _ (by rw [hAlloc_length]; omega), hGet_alloc_lt _ _ _ hr]

theorem matchFeatureH_preserves (ext : PhoneExt) (st : MState) (f1 f2 : FrameH)
    (feature : String) (h : Heap) (r : Nat) (hr : r < h.length) :
    hGet (Matcher.matchFeatureH ext st f1 f2 feature h).1 r = hGet h r := by
  unfold Matcher.matchFeatureH
  cases f1.role feature with
  | none => rfl
  | some c1 =>
    cases f2.role feature with
    | none => rfl
    | some c2 =>
      simp only []
      obtain ⟨e1, e2⟩ := mfPrep_refs f1 f2 c1 c2 (feature ++ "_fmt") h
      have hlen := mfPrep_length f1 f2 c1 c2 (feature ++ "_fmt") h
      have hbp := featureBodyH_preserves ext st f1 f2 feature (feature ++ "_fmt")
        (Matcher.mfPrep f1 f2 c1 c2 (feature ++ "_fmt") h).1
        (Matcher.mfPrep f1 f2 c1 c2 (feature ++ "_fmt") h).2.1
        (Matcher.mfPrep f1 f2 c1 c2 (feature ++ "_fmt") h).2.2 r
        (by rw [hlen]; omega) (by rw [e1]; omega) (by rw [e2]; omega)
      have hmp := mfPrep_preserves f1 f2 c1 c2 (feature ++ "_fmt") h r hr
      split
      · rw [hGet_set_ne _ _ _ _ (by rw [e2]; omega),
          hGet_set_ne _ _ _ _ (by rw [e1]; omega), hbp, hmp]
      · rw [hbp, hmp]

theorem matchFeatureH_length_ge (ext : PhoneExt) (st : MState) (f1 f2 : FrameH)
    (feature : String) (h : Heap) :
    h.length ≤ (Matcher.matchFeatureH ext st f1 f2 feature h).1.length := by
  unfold Matcher.matchFeatureH
  cases f1.role feature with
  | none => exact Nat.le_refl _
  | some c1 =>
    cases f2.role feature with
    | none => exact Nat.le_refl _
    | some c2 =>
      simp only []
      have hlen := mfPrep_length f1 f2 c1 c2 (feature ++ "_fmt") h
      have hbl := featureBodyH_length_ge ext st f1 f2 feature (feature ++ "_fmt")
        (Matcher.mfPrep f1 f2 c1 c2 (feature ++ "_fmt") h).1
        (Matcher.mfPrep f1 f2 c1 c2 (feature ++ "_fmt") h).2.1
        (Matcher.mfPrep f1 f2 c1 c2 (feature ++ "_fmt") h).2.2
      split
      · rw [hSet_length, hSet_length]
        exact Nat.le_trans (by rw [hlen]; omega) hbl
      · exact Nat.le_trans (by rw [hlen]; omega) hbl

theorem runH_preserves (ext : PhoneExt) (st : MState) (f1 f2 : FrameH)
    (h : Heap) (r : Nat) (hr : r < h.length) :
    hGet (Matcher.runH ext st f1 f2 h).1 r = hGet h r := by
  have l1 := matchFeatureH_length_ge ext st f1 f2 "domain" h
  have l2 := matchFeatureH_length_ge ext st f1 f2 "phone"
    (Matcher.matchFeatureH ext st f1 f2 "domain" h).1
  have l3 := matchFeatureH_length_ge ext st f1 f2 "address"
    (Matcher.matchFeatureH ext st f1 f2 "phone"
      (Matcher.matchFeatureH ext st f1 f2 "domain" h).1).1
  have p1 := matchFeatureH_preserves ext st f1 f2 "domain" h r hr
  have p2 := matchFeatureH_preserves ext st f1 f2 "phone"
    (Matcher.matchFeatureH ext st f1 f2 "domain" h).1 r (by omega)
  have p3 := matchFeatureH_preserves ext st f1 f2 "address"
    (Matcher.matchFeatureH ext st f1 f2 "phone"
      (Matcher.matchFeatureH ext st f1 f2 "domain" h).1).1 r (by omega)
  have p4 := matchFeatureH_preserves ext st f1 f2 "entity_name"
    (Matcher.matchFeatureH ext st f1 f2 "address"
      (Matcher.matchFeatureH ext st f1 f2 "phone"
        (Matcher.matchFeatureH ext st f1 f2 "domain" h).1).1).1 r (by omega)
  rw [show (Matcher.runH ext st f1 f2 h).1 =
      (Matcher.matchFeatureH ext st f1 f2 "entity_name"
        (Matcher.matchFeatureH ext st f1 f2 "address"
          (Matcher.matchFeatureH ext st f1 f2 "phone"
            (Matcher.matchFeatureH ext st f1 f2 "domain" h).1).1).1).1 from rfl]
  rw [p4, p3, p2, p1]

theorem frame_initH_preserves (h : Heap) (r0 : Nat) (name index : String)
    (domain address phone country entity_name : Option String)
    (r : Nat) (hr : r < h.length) :
    hGet (Frame.initH h r0 name index domain address phone country entity_name).1 r =
      hGet h r := by
  unfold Frame.initH
  simp only []
  rw [hGet_alloc_lt _ _ _ (by rw [hAlloc_length]; omega), hGet_alloc_lt _ _ _ hr]

theorem frame_initH_stores_copy (h : Heap) (r0 : Nat) (name index : String)
    (domain address phone country entity_name : Option String) :
    hGet (Frame.initH h r0 name index domain address phone country entity_name).1
        (Frame.initH h r0 name index domain address phone country entity_name).2.dataRef =
      addSuffix ("_" ++ name) (hGet h r0) := by
  unfold Frame.initH
  simp only []
  rw [hGet_alloc_self, hGet_alloc_self]

/-- C10: registering a record set never mutates it, and neither does run.
Frame construction copies the object (line 26) and rebinds the Frame data
attribute to the renamed object add_suffix returns (line 37), so every
pre-existing object — in particular the caller's table, with its column
names and values — reads back unchanged after construction, and the Frame
holds exactly the suffix-renamed copy; the run pipeline allocates its own
copies of the frame data (lines 138-139) and applies its in-place
operations only to objects it created, so every pre-existing object also
reads back unchanged after run. -/
theorem c10_no_caller_mutation :
    (∀ (h : Heap) (r0 : Nat) (name index : String)
        (domain address phone country entity_name : Option String) (r : Nat),
        r < h.length →
        hGet (Frame.initH h r0 name index domain address phone country entity_name).1 r =
          hGet h r) ∧
    (∀ (h : Heap) (r0 : Nat) (name index : String)
        (domain address phone country entity_name : Option String),
        hGet (Frame.initH h r0 name index domain address phone country entity_name).1
            (Frame.initH h r0 name index domain address phone country entity_name).2.dataRef =
          addSuffix ("_" ++ name) (hGet h r0)) ∧
    (∀ (ext : PhoneExt) (st : MState) (f1 f2 : FrameH) (h : Heap) (r : Nat),
        r < h.length →
        hGet (Matcher.runH ext st f1 f2 h).1 r = hGet h r) :=
  ⟨fun h r0 name index d a p c e r hr =>
      frame_initH_preserves h r0 name index d a p c e r hr,
   fun h r0 name index d a p c e =>
      frame_initH_stores_copy h r0 name index d a p c e,
   fun ext st f1 f2 h r hr => runH_preserves ext st f1 f2 h r hr⟩

/-- C10 witness: a one-object heap holding a one-row table; constructing a
Frame from it leaves the object unchanged and stores its renamed copy, and
running the pipeline over two registered heap frames leaves it unchanged
as well. -/
theorem c10_no_caller_mutation_witness :
    hGet (Frame.initH [[[("id", Value.str (S "1"))]]] 0 "l" "id"
        none none none none none).1 0 =
      hGet [[[("id", Value.str (S "1"))]]] 0 ∧
    hGet (Frame.initH [[[("id", Value.str (S "1"))]]] 0 "l" "id"
        none none none none none).1
        (Frame.initH [[[("id", Value.str (S "1"))]]] 0 "l" "id"
          none none none none none).2.dataRef =
      addSuffix ("_" ++ "l") (hGet [[[("id", Value.str (S "1"))]]] 0) ∧
    hGet (Matcher.runH noPhone (Matcher.init false [])
        { dataRef := 1, name := "l", index := "id_l", domain := none, address := none,
          phone := none, country := none, entity_name := some "nm_l", suffix := "_l" }
        { dataRef := 2, name := "r", index := "id_r", domain := none, address := none,
          phone := none, country := none, entity_name := some "nm_r", suffix := "_r" }
        [[[("id", Value.str (S "1"))]],
         [[("id_l", Value.str (S "1")), ("nm_l", Value.str (S "acme"))]],
         [[("id_r", Value.str (S "a")), ("nm_r", Value.str (S "acme"))]]]).1 0 =
      hGet [[[("id", Value.str (S "1"))]],
         [[("id_l", Value.str (S "1")), ("nm_l", Value.str (S "acme"))]],
         [[("id_r", Value.str (S "a")), ("nm_r", Value.str (S "acme"))]]] 0 :=
  ⟨c10_no_caller_mutation.1 [[[("id", Value.str (S "1"))]]] 0 "l" "id"
      none none none none none 0 (by decide),
   c10_no_caller_mutation.2.1 [[[("id", Value.str (S "1"))]]] 0 "l" "id"
      none none none none none,
   c10_no_caller_mutation.2.2 noPhone (Matcher.init false [])
      { dataRef := 1, name := "l", index := "id_l", domain := none, address := none,
        phone := none, country := none, entity_name := some "nm_l", suffix := "_l" }
      { dataRef := 2, name := "r", index := "id_r", domain := none, address := none,
        phone := none, country := none, entity_name := some "nm_r", suffix := "_r" }
      [[[("id", Value.str (S "1"))]],
       [[("id_l", Value.str (S "1")), ("nm_l", Value.str (S "acme"))]],
       [[("id_r", Value.str (S "a")), ("nm_r", Value.str (S "acme"))]]] 0 (by decide)⟩
